import Mathlib

/-!
Verification of the spike-lab agentic-orchestrator core against its
natural-language specification.

The development shallowly embeds the relevant Rust source files:

* `AO` — the safety validator of
  `agentic-orchestrator/crates/core/src/validation.rs` together with the
  exec-block model of `agentic-orchestrator/crates/core/src/model.rs`.
* `Daemon` — the scheduler / leaser service of
  `crates/daemon/src/service.rs` with the record model of
  `crates/core/src/model.rs`, the database being passed explicitly.
* `OD` — the completion endpoint of
  `crates/orchestrator-daemon/src/state.rs` (multi-attempt retry).
* `OA` — the local execution runner of
  `crates/orchestrator-agent/src/main.rs` (timeout enforcement).

Machine integers of the source (i64 timestamps, u64 timeouts, usize
indices) are modelled as `Int` and `Nat`: none of the verified paths can
overflow their 64-bit ranges.  Rust `String` is Lean `String`;
`BTreeMap<String,String>` environments are association lists; `Option`
is `Option`; fallible functions return `Except`.
-/

namespace AO

/-- Validation decision for an exec block (`Decision` in validation.rs). -/
inductive Decision where
  | allow
  | warn
  | block
deriving DecidableEq, Repr

/-- Result of validating an exec block (`ValidationOutcome` in validation.rs). -/
structure ValidationOutcome where
  decision : Decision
  warnings : List String
  violations : List String
deriving DecidableEq, Repr

/-- The `ValidationOutcome::allow()` constructor. -/
def ValidationOutcome.allowOut : ValidationOutcome :=
  { decision := .allow, warnings := [], violations := [] }

/-- The `ValidationOutcome::warn` builder: keep `Block`, otherwise move to
`Warn`; push the message onto `warnings`. -/
def ValidationOutcome.warnMsg (o : ValidationOutcome) (msg : String) : ValidationOutcome :=
  { o with
    decision := if o.decision = .block then .block else .warn
    warnings := o.warnings ++ [msg] }

/-- The `ValidationOutcome::block` builder: force `Block` and push the
message onto `violations`. -/
def ValidationOutcome.blockMsg (o : ValidationOutcome) (msg : String) : ValidationOutcome :=
  { o with
    decision := .block
    violations := o.violations ++ [msg] }

/-- Command spec of the agentic-orchestrator core model (`CommandSpec`):
program + args, no implicit shell. -/
structure CommandSpec where
  program : String
  args : List String
  cwd : Option String
  env : List (String × String)
  timeout_sec : Option Nat
deriving DecidableEq, Repr

/-- Exec block spec of the agentic-orchestrator core model (`ExecBlockSpec`). -/
structure ExecBlockSpec where
  workdir : String
  commands : List CommandSpec
  halt_on_error : Bool
  allow_shell : Bool
  env : List (String × String)
deriving DecidableEq, Repr

/-- Rust `str::to_lowercase`, restricted to its ASCII behaviour (all the
program names the validator compares against are ASCII). -/
def strToLower (s : String) : String :=
  ⟨s.data.map Char.toLower⟩

/-- Rust `str::trim`: strip whitespace from both ends. -/
def strTrim (s : String) : String :=
  ⟨(((s.data.dropWhile Char.isWhitespace).reverse.dropWhile Char.isWhitespace).reverse)⟩

/-- Rust `str::is_empty`. -/
def strIsEmpty (s : String) : Bool :=
  s.data.isEmpty

/-- Rust `str::starts_with`. -/
def strStartsWith (s pre : String) : Bool :=
  pre.data.isPrefixOf s.data

/-- Path components in the sense of Rust `std::path::Path::components` on
Unix: split on `/`, dropping empty components and `.` (`CurDir`).  The
`Prefix` component never occurs on Unix and `RootDir` occurs only in
absolute paths, which `is_safe_rel_path` rejects separately. -/
def pathComponents (p : String) : List String :=
  ((p.data.splitOn '/').map (fun l => (⟨l⟩ : String))).filter (fun c => c ≠ "" ∧ c ≠ ".")

/-- Rust `Path::is_absolute` on Unix: the path starts with `/`. -/
def is_absolute (p : String) : Bool :=
  strStartsWith p "/"

/-- The `is_safe_rel_path` predicate of validation.rs: not absolute and no
`..` (`ParentDir`) component. -/
def is_safe_rel_path (p : String) : Bool :=
  ¬ is_absolute p ∧ ¬ (pathComponents p).contains ".."

/-- The `non_flag_args` helper: arguments not beginning with `-`. -/
def non_flag_args (args : List String) : List String :=
  args.filter (fun a => ¬ strStartsWith a "-")

/-- Shell entry points blocked by default (the `matches!` list in
`validate_command`). -/
def shellPrograms : List String :=
  ["sh", "bash", "zsh", "fish", "cmd", "cmd.exe", "powershell", "pwsh"]

/-- Message for a blocked shell entrypoint. -/
def shellFrag (program : String) : String :=
  "shell entrypoint \x27" ++ program ++ "\x27 is blocked"

/-- Full shell-entrypoint violation text of validation.rs. -/
def shellBlockedMsg (index : Nat) (program : String) : String :=
  "cmd[" ++ toString index ++ "]: " ++ shellFrag program ++
    " (set allow_shell=true to override)"

/-- Violation text for an unsafe `cwd`. -/
def cwdBlockedMsg (index : Nat) (cwd : String) : String :=
  "cmd[" ++ toString index ++ "]: cwd \x27" ++ cwd ++
    "\x27 is not a safe relative path (no absolute paths or \x27..\x27)"

/-- The destructive-command heuristics of `validate_command` (the `match`
on the lowercased program).  `Except.error` models the early `return`;
`Except.ok` falls through to the trailing workdir check. -/
def destructiveCheck (index : Nat) (blk : ExecBlockSpec) (cmd : CommandSpec)
    (prog : String) (out : ValidationOutcome) : Except ValidationOutcome ValidationOutcome :=
  if prog = "rm" ∨ prog = "rmdir" ∨ prog = "unlink" then
    let paths := non_flag_args cmd.args
    let out := if paths.isEmpty then
        out.warnMsg ("cmd[" ++ toString index ++ "]: \x27" ++ prog ++
          "\x27 with no explicit paths (might default to cwd)")
      else out
    match paths.find? (fun p => ¬ is_safe_rel_path p) with
    | some p =>
        .error (out.blockMsg ("cmd[" ++ toString index ++ "]: \x27" ++ prog ++
          "\x27 path \x27" ++ p ++
          "\x27 is not allowed (must be relative and must not contain \x27..\x27)"))
    | none =>
        .ok (out.warnMsg ("cmd[" ++ toString index ++ "]: destructive tool \x27" ++
          prog ++ "\x27 allowed only for safe relative paths within workdir \x27" ++
          blk.workdir ++ "\x27"))
  else if prog = "mv" ∨ prog = "cp" ∨ prog = "chmod" ∨ prog = "chown" ∨ prog = "ln" then
    match (non_flag_args cmd.args).find? (fun a => ¬ is_safe_rel_path a) with
    | some a =>
        .error (out.blockMsg ("cmd[" ++ toString index ++ "]: \x27" ++ prog ++
          "\x27 arg \x27" ++ a ++ "\x27 is not a safe relative path"))
    | none =>
        .ok (out.warnMsg ("cmd[" ++ toString index ++ "]: tool \x27" ++ prog ++
          "\x27 is audited; ensure it only touches paths under workdir"))
  else if prog = "dd" ∨ prog = "mkfs" ∨ prog = "shutdown" ∨ prog = "reboot" then
    .ok (out.blockMsg ("cmd[" ++ toString index ++ "]: \x27" ++ prog ++
      "\x27 is blocked by policy"))
  else
    .ok out

/-- The `validate_command` function of validation.rs: shell gate, `cwd`
boundary check, destructive heuristics, trailing workdir-absoluteness
warning. -/
def validate_command (index : Nat) (blk : ExecBlockSpec) (cmd : CommandSpec) :
    ValidationOutcome :=
  let out := ValidationOutcome.allowOut
  let prog := strToLower cmd.program
  let is_shell := shellPrograms.contains prog
  if is_shell ∧ ¬ blk.allow_shell then
    out.blockMsg (shellBlockedMsg index cmd.program)
  else
    match cmd.cwd with
    | some cwd =>
      if ¬ is_safe_rel_path cwd then
        out.blockMsg (cwdBlockedMsg index cwd)
      else
        match destructiveCheck index blk cmd prog out with
        | .error o => o
        | .ok o =>
          if ¬ is_absolute blk.workdir then
            o.warnMsg ("cmd[" ++ toString index ++ "]: workdir \x27" ++ blk.workdir ++
              "\x27 is not absolute; boundaries are enforced lexically in v0")
          else o
    | none =>
      match destructiveCheck index blk cmd prog out with
      | .error o => o
      | .ok o =>
        if ¬ is_absolute blk.workdir then
          o.warnMsg ("cmd[" ++ toString index ++ "]: workdir \x27" ++ blk.workdir ++
            "\x27 is not absolute; boundaries are enforced lexically in v0")
        else o

/-- The `out_merge` helper: Block dominates Warn dominates the base
decision; warnings and violations accumulate. -/
def out_merge (base other : ValidationOutcome) : ValidationOutcome :=
  { decision :=
      if base.decision = .block ∨ other.decision = .block then .block
      else if base.decision = .warn ∨ other.decision = .warn then .warn
      else base.decision
    warnings := base.warnings ++ other.warnings
    violations := base.violations ++ other.violations }

/-- The command loop of `validate_exec_block`: merge each command's
outcome, stopping early at the first Block. -/
def validateLoop (blk : ExecBlockSpec) : Nat → ValidationOutcome → List CommandSpec →
    ValidationOutcome
  | _, out, [] => out
  | idx, out, c :: cs =>
    let m := out_merge out (validate_command idx blk c)
    if m.decision = .block then m else validateLoop blk (idx + 1) m cs

/-- The `validate_exec_block` function of validation.rs. -/
def validate_exec_block (spec : ExecBlockSpec) : ValidationOutcome :=
  if strIsEmpty (strTrim spec.workdir) then
    ValidationOutcome.allowOut.blockMsg "workdir must not be empty"
  else if spec.commands.isEmpty then
    ValidationOutcome.allowOut.blockMsg "exec block must contain at least one command"
  else
    validateLoop spec 0 ValidationOutcome.allowOut spec.commands

/-- Invariant relating a validation outcome's decision to its message lists. -/
def outInv (o : ValidationOutcome) : Prop :=
  (o.decision = .block ↔ o.violations ≠ []) ∧ (o.decision = .allow → o.warnings = [])

def exceptJoin : Except ValidationOutcome ValidationOutcome → ValidationOutcome
  | .error o => o
  | .ok o => o

/-- The four hard-denied programs of validation.rs. -/
def denyPrograms : List String :=
  ["dd", "mkfs", "shutdown", "reboot"]

/-- Exec block running `sudo rm -rf /`: the claimed hard-deny list says this
must be blocked, but validation.rs has no rule for `sudo`. -/
def sudoSpec : ExecBlockSpec :=
  { workdir := "/tmp"
    commands := [{ program := "sudo", args := ["rm", "-rf", "/"], cwd := none,
                   env := [], timeout_sec := none }]
    halt_on_error := true
    allow_shell := false
    env := [] }

/-- Exec block whose only command is `DD` (exercising the lowercasing). -/
def ddSpec : ExecBlockSpec :=
  { workdir := "/tmp"
    commands := [{ program := "DD", args := ["if=/dev/zero"], cwd := none,
                   env := [], timeout_sec := none }]
    halt_on_error := true
    allow_shell := false
    env := [] }

/-- Exec block running `dash -c`: the claim says `dash` is a blocked shell
entrypoint, but the shell list in validation.rs has no `dash` (or `ksh`). -/
def dashSpec : ExecBlockSpec :=
  { workdir := "/tmp"
    commands := [{ program := "dash", args := ["-c", "echo hi"], cwd := none,
                   env := [], timeout_sec := none }]
    halt_on_error := true
    allow_shell := false
    env := [] }

/-- Scenario B exec block: `bash -c "echo hi"` with `allow_shell=false`. -/
def bashSpec : ExecBlockSpec :=
  { workdir := "/tmp"
    commands := [{ program := "bash", args := ["-c", "echo hi"], cwd := none,
                   env := [], timeout_sec := none }]
    halt_on_error := true
    allow_shell := false
    env := [] }

/-- Exec block with a single innocuous `echo` command. -/
def echoSpec : ExecBlockSpec :=
  { workdir := "/tmp"
    commands := [{ program := "echo", args := ["ok"], cwd := none,
                   env := [], timeout_sec := none }]
    halt_on_error := true
    allow_shell := false
    env := [] }

end AO

namespace Daemon

/-- Record ids.  The daemon keys every record by a fresh ULID string
("job:01H…"); the embedding abstracts these ids as naturals drawn from a
monotone counter (`Db.fresh`), their only used property being freshness. -/
abbrev Id := Nat

/-- Stage kind (`StageKind` in crates/core model.rs — only `ExecBlock`). -/
inductive StageKind where
  | exec_block
deriving DecidableEq, Repr

/-- Slurm submission settings (`SlurmSpec`). -/
structure SlurmSpec where
  partition : Option String
  time_limit : Option String
  cpus_per_task : Option Nat
  mem_mb : Option Nat
  extra_args : List String
  poll_ms : Nat
deriving DecidableEq, Repr

/-- Execution backend (`ExecutorSpec`). -/
inductive ExecutorSpec where
  | localExec
  | slurm (spec : SlurmSpec)
deriving DecidableEq, Repr

/-- Command spec of crates/core model.rs (adds `executor`-aware fields over
the agentic-orchestrator variant). -/
structure CommandSpec where
  program : String
  args : List String
  cwd : Option String
  env : List (String × String)
  timeout_sec : Option Nat
deriving DecidableEq, Repr

/-- Exec block spec of crates/core model.rs. -/
structure ExecBlockSpec where
  workdir : String
  executor : ExecutorSpec
  commands : List CommandSpec
  halt_on_error : Bool
  allow_shell : Bool
  env : List (String × String)
deriving DecidableEq, Repr

/-- Stage configuration (`StageConfig`), a tagged variant with one tag. -/
inductive StageConfig where
  | exec_block (spec : ExecBlockSpec)
deriving DecidableEq, Repr

/-- Extract the exec block of a stage config (total, as `StageConfig` has a
single variant: the `if let StageConfig::ExecBlock(exec)` patterns of
service.rs always match). -/
def StageConfig.exec : StageConfig → ExecBlockSpec
  | exec_block e => e

/-- Stage definition inside a workflow (`StageDef`). -/
structure StageDef where
  stage_id : String
  kind : StageKind
  config : StageConfig
deriving DecidableEq, Repr

/-- Workflow dependency edge (`Edge`): `from -> to` means `to` depends on
`from` (`from`/`to` are Rust field names; Lean reserves them). -/
structure Edge where
  from_ : String
  to_ : String
deriving DecidableEq, Repr

/-- Declarative workflow definition (`WorkflowSpec`). -/
structure WorkflowSpec where
  name : String
  stages : List StageDef
  edges : List Edge
deriving DecidableEq, Repr

/-- Job status (`JobStatus`). -/
inductive JobStatus where
  | queued
  | running
  | succeeded
  | failed
deriving DecidableEq, Repr

/-- Stage status (`StageStatus`). -/
inductive StageStatus where
  | pending
  | running
  | succeeded
  | failed
  | needs_human
  | skipped
deriving DecidableEq, Repr

/-- Run status (`RunStatus`). -/
inductive RunStatus where
  | running
  | succeeded
  | failed
deriving DecidableEq, Repr

/-- Per-command result (`CommandResult`). -/
structure CommandResult where
  index : Nat
  program : String
  args : List String
  cwd : Option String
  started_at_ms : Int
  finished_at_ms : Int
  exit_code : Option Int
  status : JobStatus
  stdout_path : String
  stderr_path : String
  error : Option String
deriving DecidableEq, Repr

/-- Result of executing an exec-block stage (`ExecBlockResult`). -/
structure ExecBlockResult where
  run_id : Id
  stage_id : String
  bundle_root : String
  executor : ExecutorSpec
  slurm_job_id : Option String
  extra_files : List String
  started_at_ms : Int
  finished_at_ms : Int
  status : JobStatus
  commands : List CommandResult
  error : Option String
deriving DecidableEq, Repr

/-- Job lease returned to an agent (`JobLease`). -/
structure JobLease where
  job_id : Id
  lease_token : String
  run_id : Id
  stage_id : String
  kind : StageKind
  config : StageConfig
  lease_expires_at_ms : Int
deriving DecidableEq, Repr

/-- Agent complete response (`CompleteResponse` in crates/core api.rs). -/
structure CompleteResponse where
  ok : Bool
  message : Option String
deriving DecidableEq, Repr

/-- Demo enqueue request (`DemoEnqueueRequest` in crates/core api.rs). -/
structure DemoEnqueueRequest where
  project_path : String
  description : String
deriving DecidableEq, Repr

/-- Intent record as created by `demo_enqueue`. -/
structure IntentRec where
  id : Id
  project_path : String
  description : String
  created_at_ms : Int
  workflow_name : String
deriving DecidableEq, Repr

/-- Run record as created by `demo_enqueue` and mutated by the service. -/
structure RunRec where
  id : Id
  intent_id : Id
  workflow_name : String
  status : RunStatus
  created_at_ms : Int
  owner_agent : Option String
  owner_lease_expires_at_ms : Option Int
deriving DecidableEq, Repr

/-- StageRun record as created by `materialize_run` and mutated by the
service (SurrealDB is schemaless: fields first written by a later UPDATE
are `Option`, absent = `none` = SurrealDB `NONE`). -/
structure StageRunRec where
  id : Id
  run_id : Id
  stage_id : String
  kind : StageKind
  config : StageConfig
  status : StageStatus
  created_at_ms : Int
  validation : Option AO.ValidationOutcome
  workspace_path : Option String
  finished_at_ms : Option Int
  artifact_id : Option Id
deriving DecidableEq, Repr

/-- Job record as created by `enqueue_job_for_stage_run` and mutated by
claim / complete / reconcile. -/
structure JobRec where
  id : Id
  run_id : Id
  stage_run_id : Id
  stage_id : String
  kind : StageKind
  config : StageConfig
  status : JobStatus
  created_at_ms : Int
  started_at_ms : Option Int
  finished_at_ms : Option Int
  lease_owner : Option String
  lease_token : Option String
  lease_expires_at_ms : Option Int
  workspace_path : Option String
  artifact_id : Option Id
  result : Option ExecBlockResult
deriving DecidableEq, Repr

/-- Artifact record persisted by `complete_job`. -/
structure ArtifactRec where
  id : Id
  run_id : Id
  stage_id : String
  bundle_root : String
  created_at_ms : Int
deriving DecidableEq, Repr

/-- One record of the `requires` edge table.  `RELATE $to->requires->$from`
(in `materialize_run`) creates a record with `in = $to` (the dependent
StageRun) and `out = $from` (its dependency): SurrealDB's `RELATE a->t->b`
always stores `in = a`, `out = b`. -/
structure RequiresEdge where
  inId : Id
  outId : Id
deriving DecidableEq, Repr

/-- The SurrealDB state of the daemon: one list per table plus the
freshness counter backing id generation. -/
structure Db where
  intents : List IntentRec
  runs : List RunRec
  stage_runs : List StageRunRec
  jobs : List JobRec
  artifacts : List ArtifactRec
  requires : List RequiresEdge
  fresh : Id
deriving DecidableEq, Repr

/-- The empty database a fresh daemon starts from. -/
def Db.empty : Db :=
  { intents := [], runs := [], stage_runs := [], jobs := [], artifacts := []
    requires := [], fresh := 0 }

/-- `SELECT * FROM $run` for a record id. -/
def findRun (db : Db) (i : Id) : Option RunRec :=
  db.runs.find? (fun r => r.id = i)

/-- `SELECT * FROM $sr` for a record id. -/
def findStageRun (db : Db) (i : Id) : Option StageRunRec :=
  db.stage_runs.find? (fun s => s.id = i)

/-- `SELECT * FROM $job` for a record id. -/
def findJob (db : Db) (i : Id) : Option JobRec :=
  db.jobs.find? (fun j => j.id = i)

/-- `UPDATE $run SET …` for a record id. -/
def updateRun (db : Db) (i : Id) (f : RunRec → RunRec) : Db :=
  { db with runs := db.runs.map (fun r => if r.id = i then f r else r) }

/-- `UPDATE $sr SET …` for a record id. -/
def updateStageRun (db : Db) (i : Id) (f : StageRunRec → StageRunRec) : Db :=
  { db with stage_runs := db.stage_runs.map (fun s => if s.id = i then f s else s) }

/-- `UPDATE $job SET …` for a record id. -/
def updateJob (db : Db) (i : Id) (f : JobRec → JobRec) : Db :=
  { db with jobs := db.jobs.map (fun j => if j.id = i then f j else j) }

/-- SurrealDB `field != NONE AND field < $now`. -/
def expiredOpt (o : Option Int) (now : Int) : Bool :=
  match o with
  | some e => e < now
  | none => false

/-- The `reconcile` service method: requeue running jobs whose lease
expired (clearing the three lease fields, touching nothing else) and clear
expired run owner leases. -/
def reconcile (now : Int) (db : Db) : Db :=
  let db :=
    { db with jobs := db.jobs.map (fun (j : JobRec) =>
        if j.status = JobStatus.running ∧ expiredOpt j.lease_expires_at_ms now then
          { j with status := .queued, lease_owner := none, lease_token := none
                   lease_expires_at_ms := none }
        else j) }
  { db with runs := db.runs.map (fun (r : RunRec) =>
      if expiredOpt r.owner_lease_expires_at_ms now then
        { r with owner_agent := none, owner_lease_expires_at_ms := none }
      else r) }

/-- Validator used by `enqueue_job_for_stage_run`.  The daemon calls
`orchestrator_core::validation::validate_exec_block`; that module of
crates/core is not among the sources (only its tests are), so the service
is parameterised over the validator and every theorem holds for all of
them.  `coreValidate` instantiates it with the identically-shaped
validator of agentic-orchestrator/crates/core/src/validation.rs. -/
abbrev Validator := ExecBlockSpec → AO.ValidationOutcome

/-- The sibling validator applied to the crates/core exec block (the
`executor` field is not consulted by validation). -/
def coreValidate : Validator := fun s =>
  AO.validate_exec_block
    { workdir := s.workdir
      commands := s.commands.map (fun c =>
        { program := c.program, args := c.args, cwd := c.cwd, env := c.env
          timeout_sec := c.timeout_sec })
      halt_on_error := s.halt_on_error
      allow_shell := s.allow_shell
      env := s.env }

/-- The `unmet_deps` query: count StageRuns that are not succeeded among
`SELECT VALUE in FROM requires WHERE out = $sr`. -/
def unmet_deps (db : Db) (sr : Id) : Nat :=
  (db.stage_runs.filter (fun s =>
    ((db.requires.filter (fun e => e.outId = sr)).map (fun e => e.inId)).contains s.id ∧
      s.status ≠ .succeeded)).length

/-- The `enqueue_job_for_stage_run` service method: guarded by the
no-queued-or-running-job check, validates the exec block, then creates a
queued Job carrying the StageRun's stage info. -/
def enqueue_job_for_stage_run (v : Validator) (now : Int) (stage_run_id : Id)
    (stage_run_rec : StageRunRec) (db : Db) : Db :=
  let c := (db.jobs.filter (fun j =>
    j.stage_run_id = stage_run_id ∧ (j.status = .queued ∨ j.status = .running))).length
  if c > 0 then db
  else
    let createJob : Db → Db := fun db =>
      let job : JobRec :=
        { id := db.fresh
          run_id := stage_run_rec.run_id
          stage_run_id := stage_run_id
          stage_id := stage_run_rec.stage_id
          kind := stage_run_rec.kind
          config := stage_run_rec.config
          status := .queued
          created_at_ms := now
          started_at_ms := none, finished_at_ms := none
          lease_owner := none, lease_token := none, lease_expires_at_ms := none
          workspace_path := none, artifact_id := none, result := none }
      { db with jobs := db.jobs ++ [job], fresh := db.fresh + 1 }
    let outcome := v stage_run_rec.config.exec
    match outcome.decision with
    | .block =>
        updateStageRun db stage_run_id (fun s =>
          { s with status := .needs_human, validation := some outcome })
    | .warn =>
        createJob (updateStageRun db stage_run_id (fun s =>
          { s with validation := some outcome }))
    | .allow => createJob db

/-- The `enqueue_runnable_stages` service method: snapshot the pending
StageRuns of the Run, and enqueue each whose unmet-dependency count
against the current database is zero. -/
def enqueue_runnable_stages (v : Validator) (now : Int) (run_id : Id) (db : Db) : Db :=
  let srs := db.stage_runs.filter (fun s => s.run_id = run_id ∧ s.status = .pending)
  srs.foldl (fun db sr =>
    if unmet_deps db sr.id = 0 then enqueue_job_for_stage_run v now sr.id sr db else db) db

/-- The `enqueue_downstream` service method: snapshot
`SELECT * FROM stage_run WHERE id IN (SELECT VALUE out FROM requires WHERE in = $sr)`
and enqueue the pending ones with no unmet dependencies. -/
def enqueue_downstream (v : Validator) (now : Int) (succeeded_stage_run_id : Id) (db : Db) : Db :=
  let dependents := db.stage_runs.filter (fun s =>
    ((db.requires.filter (fun e => e.inId = succeeded_stage_run_id)).map
      (fun e => e.outId)).contains s.id)
  dependents.foldl (fun db dep =>
    if dep.status ≠ .pending then db
    else if unmet_deps db dep.id = 0 then enqueue_job_for_stage_run v now dep.id dep db
    else db) db

/-- One neighbourhood expansion of the `skip_downstream` BFS:
`SELECT VALUE out FROM requires WHERE in = $sr`. -/
def skipOuts (db : Db) (cur : Id) : List Id :=
  (db.requires.filter (fun e => e.inId = cur)).map (fun e => e.outId)

/-- Body of the `for dep_thing in outs` loop of `skip_downstream`: skip
seen ids, otherwise mark seen, enqueue for BFS and conditionally update
(`UPDATE $sr SET status = 'skipped' WHERE status = 'pending'`). -/
def skipVisit : (List Id × List Id × Db) → Id → (List Id × List Id × Db)
  | (queue, seen, db), dep =>
    if seen.contains dep then (queue, seen, db)
    else
      (queue ++ [dep], dep :: seen,
        { db with stage_runs := db.stage_runs.map (fun s =>
            if s.id = dep ∧ s.status = .pending then { s with status := .skipped } else s) })

/-- The `while let Some(cur) = queue.pop_front()` loop of
`skip_downstream`.  The fuel only bounds the number of pops; every pop
matches a push and pushes are capped by the seen-set at one per distinct
edge target plus the root, so `db.requires.length + 1` fuel never
truncates the BFS. -/
def skipBFS : Nat → List Id → List Id → Db → Db
  | 0, _, _, db => db
  | _ + 1, [], _, db => db
  | fuel + 1, cur :: queue, seen, db =>
    let step := (skipOuts db cur).foldl skipVisit (queue, seen, db)
    skipBFS fuel step.1 step.2.1 step.2.2

/-- The `skip_downstream` service method: BFS over the `requires` table in
the `in → out` direction starting from the given StageRun, conditionally
marking pending StageRuns `skipped`. -/
def skip_downstream (stage_run_id : Id) (db : Db) : Db :=
  skipBFS (db.requires.length + 1) [stage_run_id] [stage_run_id] db

/-- The `update_run_status` service method: any failed/needs_human
StageRun fails the Run; otherwise no pending/running StageRun left makes
it succeed; both clear the owner lease. -/
def update_run_status (run_id : Id) (db : Db) : Db :=
  let fail_count := (db.stage_runs.filter (fun s =>
    s.run_id = run_id ∧ (s.status = .failed ∨ s.status = .needs_human))).length
  if fail_count > 0 then
    updateRun db run_id (fun r =>
      { r with status := .failed, owner_agent := none, owner_lease_expires_at_ms := none })
  else
    let remaining := (db.stage_runs.filter (fun s =>
      s.run_id = run_id ∧ (s.status = .pending ∨ s.status = .running))).length
    if remaining = 0 then
      updateRun db run_id (fun r =>
        { r with status := .succeeded, owner_agent := none, owner_lease_expires_at_ms := none })
    else db

/-- The job-record update performed by `complete_job` step 3: set the
terminal status, stamp finish time / artifact / result, clear the lease. -/
def completeJobUpdate (job_status : JobStatus) (finished_at_ms : Int) (artifact_id : Id)
    (result : ExecBlockResult) (j : JobRec) : JobRec :=
  { j with status := job_status, finished_at_ms := some finished_at_ms
           artifact_id := some artifact_id, result := some result
           lease_owner := none, lease_token := none, lease_expires_at_ms := none }

/-- The `complete_job` service method, returning the response together
with the database after the call. -/
def complete_job (v : Validator) (agent_id : String) (job_id : Id) (lease_token : String)
    (result : ExecBlockResult) (now : Int) (db : Db) : CompleteResponse × Db :=
  match findJob db job_id with
  | none => ({ ok := false, message := some "job not found" }, db)
  | some job =>
    if job.status = .succeeded ∨ job.status = .failed then
      ({ ok := true, message := some "already completed" }, db)
    else
      let owner_ok := job.lease_owner = some agent_id
      let token_ok := job.lease_token = some lease_token
      if ¬ (owner_ok ∧ token_ok) then
        ({ ok := false, message := some "lease mismatch" }, db)
      else
        let artifact_id := db.fresh
        let db := { db with
          artifacts := db.artifacts ++
            [{ id := artifact_id, run_id := result.run_id, stage_id := result.stage_id
               bundle_root := result.bundle_root, created_at_ms := now }]
          fresh := db.fresh + 1 }
        let job_status : JobStatus :=
          match result.status with
          | .succeeded => .succeeded
          | .failed => .failed
          | .queued => .failed
          | .running => .failed
        let db := updateJob db job_id
          (completeJobUpdate job_status result.finished_at_ms artifact_id result)
        let stage_status : StageStatus :=
          if job_status = .succeeded then .succeeded else .failed
        let db := updateStageRun db job.stage_run_id (fun s =>
          { s with status := stage_status, finished_at_ms := some result.finished_at_ms
                   artifact_id := some artifact_id })
        let db :=
          if stage_status = .succeeded then enqueue_downstream v now job.stage_run_id db
          else skip_downstream job.stage_run_id db
        let db := update_run_status result.run_id db
        ({ ok := true, message := none }, db)

/-- Insertion step of the `ORDER BY created_at_ms ASC` sort. -/
def insertByCreated (j : JobRec) : List JobRec → List JobRec
  | [] => [j]
  | x :: xs =>
    if j.created_at_ms < x.created_at_ms then j :: x :: xs else x :: insertByCreated j xs

/-- `ORDER BY created_at_ms ASC` as a stable insertion sort. -/
def sortByCreated : List JobRec → List JobRec
  | [] => []
  | x :: xs => insertByCreated x (sortByCreated xs)

/-- The candidate loop of `claim_job`.  The `ws` oracle abstracts the jj
workspace provisioning (`vcs_jj::ensure_jj_initialized` /
`ensure_workspace`, filesystem side effects outside the database):
`some p` means the workspace was created at path `p` (and the job config
is patched to run inside it), `none` means jj was unavailable and the job
runs in the project root unpatched. -/
def claimLoop (agent_id lease_token : String) (now lease_ms : Int) (ws : Option String)
    (db : Db) : List JobRec → Option JobLease × Db
  | [] => (none, db)
  | c :: cs =>
    match findRun db c.run_id with
    | none => claimLoop agent_id lease_token now lease_ms ws db cs
    | some run =>
      let skip : Bool :=
        match run.owner_agent with
        | some o => o ≠ agent_id
        | none => false
      if skip then claimLoop agent_id lease_token now lease_ms ws db cs
      else
        let lease_expires_at_ms := now + lease_ms
        let db1 := updateJob db c.id (fun j =>
          { j with status := .running, lease_owner := some agent_id
                   lease_token := some lease_token
                   lease_expires_at_ms := some lease_expires_at_ms
                   started_at_ms := some now })
        match findJob db1 c.id with
        | none => (none, db1)
        | some job =>
          let db2 := updateRun db1 c.run_id (fun r =>
            { r with owner_agent := some agent_id
                     owner_lease_expires_at_ms := some (now + lease_ms * 3) })
          let db3 := updateStageRun db2 job.stage_run_id (fun s =>
            { s with status := .running })
          match job.config, ws with
          | StageConfig.exec_block exec, some wsPath =>
            let patched := StageConfig.exec_block { exec with workdir := wsPath }
            let db4 := updateJob db3 c.id (fun j =>
              { j with config := patched, workspace_path := some wsPath })
            let db5 := updateStageRun db4 job.stage_run_id (fun s =>
              { s with workspace_path := some wsPath })
            (some { job_id := c.id, lease_token := lease_token, run_id := c.run_id
                    stage_id := job.stage_id, kind := job.kind, config := patched
                    lease_expires_at_ms := lease_expires_at_ms }, db5)
          | _, _ =>
            (some { job_id := c.id, lease_token := lease_token, run_id := c.run_id
                    stage_id := job.stage_id, kind := job.kind, config := job.config
                    lease_expires_at_ms := lease_expires_at_ms }, db3)

/-- The `claim_job` service method: select the up-to-ten oldest queued
jobs and claim the first whose Run is unowned or owned by this agent.
`lease_token` stands for the fresh `Uuid::new_v4()`. -/
def claim_job (agent_id lease_token : String) (now lease_ms : Int) (ws : Option String)
    (db : Db) : Option JobLease × Db :=
  claimLoop agent_id lease_token now lease_ms ws db
    ((sortByCreated (db.jobs.filter (fun j => j.status = .queued))).take 10)

/-- The `materialize_run` service method: create one pending StageRun per
stage (the `stage_map` HashMap becomes an overwrite-on-insert association
list), then `RELATE $to->requires->$from` for each edge whose endpoints
are known, i.e. append a `requires` record with `in = to_sr`,
`out = from_sr`. -/
def materialize_run (now : Int) (run_id : Id) (wf : WorkflowSpec) (db : Db) : Db :=
  let step := wf.stages.foldl (fun (acc : Db × List (String × Id)) stage =>
    let db := acc.1
    let m := acc.2
    let sr : StageRunRec :=
      { id := db.fresh, run_id := run_id, stage_id := stage.stage_id
        kind := stage.kind, config := stage.config, status := .pending
        created_at_ms := now, validation := none, workspace_path := none
        finished_at_ms := none, artifact_id := none }
    ({ db with stage_runs := db.stage_runs ++ [sr], fresh := db.fresh + 1 },
      (stage.stage_id, db.fresh) :: m.filter (fun p => p.1 ≠ stage.stage_id)))
    (db, ([] : List (String × Id)))
  let stage_map := step.2
  wf.edges.foldl (fun db e =>
    match stage_map.find? (fun p => p.1 = e.from_), stage_map.find? (fun p => p.1 = e.to_) with
    | some pf, some pt => { db with requires := db.requires ++ [{ inId := pt.2, outId := pf.2 }] }
    | _, _ => db) step.1

/-- The `demo_workflow` helper: three echo stages prep → build → test. -/
def demo_workflow (project_path : String) : WorkflowSpec :=
  let mkExec : List CommandSpec → StageConfig := fun cmds =>
    StageConfig.exec_block
      { workdir := project_path, executor := .localExec, allow_shell := false
        halt_on_error := true, env := [], commands := cmds }
  { name := "demo"
    stages :=
      [ { stage_id := "prep", kind := .exec_block
          config := mkExec [{ program := "echo", args := ["prep: starting"], cwd := none
                              env := [], timeout_sec := none }] }
      , { stage_id := "build", kind := .exec_block
          config := mkExec
            [ { program := "echo", args := ["build: compiling"], cwd := none
                env := [], timeout_sec := none }
            , { program := "echo", args := ["build: done"], cwd := none
                env := [], timeout_sec := none } ] }
      , { stage_id := "test", kind := .exec_block
          config := mkExec [{ program := "echo", args := ["test: running"], cwd := none
                              env := [], timeout_sec := none }] } ]
    edges := [ { from_ := "prep", to_ := "build" }, { from_ := "build", to_ := "test" } ] }

/-- The `demo_enqueue` service method: create the intent and the Run,
materialize the demo workflow, and enqueue its runnable stages. -/
def demo_enqueue (v : Validator) (req : DemoEnqueueRequest) (now : Int) (db : Db) :
    (Id × Id) × Db :=
  let wf := demo_workflow req.project_path
  let intent_id := db.fresh
  let db := { db with
    intents := db.intents ++
      [({ id := intent_id, project_path := req.project_path, description := req.description
          created_at_ms := now, workflow_name := wf.name } : IntentRec)]
    fresh := db.fresh + 1 }
  let run_id := db.fresh
  let db := { db with
    runs := db.runs ++
      [({ id := run_id, intent_id := intent_id, workflow_name := wf.name, status := .running
          created_at_ms := now, owner_agent := none, owner_lease_expires_at_ms := none } : RunRec)]
    fresh := db.fresh + 1 }
  let db := materialize_run now run_id wf db
  let db := enqueue_runnable_stages v now run_id db
  ((intent_id, run_id), db)

/-- Exec-block stage config of the C4 scenario (Scenario C of the spec). -/
def execCfg : StageConfig :=
  StageConfig.exec_block
    { workdir := "/tmp/proj", executor := .localExec, allow_shell := false
      halt_on_error := true, env := []
      commands := [{ program := "echo", args := ["x"], cwd := none, env := [], timeout_sec := none }] }

def mkSR (i : Id) (sid : String) (st : StageStatus) : StageRunRec :=
  { id := i, run_id := 0, stage_id := sid, kind := .exec_block, config := execCfg
    status := st, created_at_ms := 10, validation := none, workspace_path := none
    finished_at_ms := none, artifact_id := none }

def jobC4 : JobRec :=
  { id := 4, run_id := 0, stage_run_id := 2, stage_id := "build", kind := .exec_block
    config := execCfg, status := .running, created_at_ms := 11
    started_at_ms := some 12, finished_at_ms := none
    lease_owner := some "a", lease_token := some "t", lease_expires_at_ms := some 500
    workspace_path := none, artifact_id := none, result := none }

def dbC4 : Db :=
  { intents := []
    runs := [{ id := 0, intent_id := 9, workflow_name := "demo", status := .running
               created_at_ms := 10, owner_agent := some "a", owner_lease_expires_at_ms := some 1000 }]
    stage_runs := [mkSR 1 "prep" .succeeded, mkSR 2 "build" .running, mkSR 3 "test" .pending]
    jobs := [jobC4]
    artifacts := []
    requires := [{ inId := 2, outId := 1 }, { inId := 3, outId := 2 }]
    fresh := 5 }

def failRes : ExecBlockResult :=
  { run_id := 0, stage_id := "build", bundle_root := "/runs/b", executor := .localExec
    slurm_job_id := none, extra_files := [], started_at_ms := 12, finished_at_ms := 20
    status := .failed, commands := [], error := some "command 0 failed (exit=Some(1))" }

def dbC4After : Db := (complete_job coreValidate "a" 4 "t" failRes 21 dbC4).2

/-- Number of Jobs of a StageRun in status queued or running (the quantity
bounded by spec invariant 2 and by the guard of
`enqueue_job_for_stage_run`). -/
def activeForStage (db : Db) (sr : Id) : Nat :=
  (db.jobs.filter (fun j =>
    j.stage_run_id = sr ∧ (j.status = .queued ∨ j.status = .running))).length

/-- Well-formedness of the job table: ids are below the freshness counter,
ids are pairwise distinct, and every StageRun has at most one active Job. -/
def JobsWF (db : Db) : Prop :=
  (∀ j ∈ db.jobs, j.id < db.fresh) ∧
  (db.jobs.map (fun j => j.id)).Nodup ∧
  (∀ sr : Id, activeForStage db sr ≤ 1)

/-- States of the daemon database reachable from a fresh daemon through
its service surface: demo-enqueue, claim, complete and the periodic
reconciler, with arbitrary request payloads, times and oracles. -/
inductive Reachable (v : Validator) : Db → Prop where
  | init : Reachable v Db.empty
  | demo (req : DemoEnqueueRequest) (now : Int) {db : Db} :
      Reachable v db → Reachable v (demo_enqueue v req now db).2
  | claim (agent_id lease_token : String) (now lease_ms : Int) (ws : Option String) {db : Db} :
      Reachable v db → Reachable v (claim_job agent_id lease_token now lease_ms ws db).2
  | complete (agent_id : String) (job_id : Id) (lease_token : String)
      (result : ExecBlockResult) (now : Int) {db : Db} :
      Reachable v db →
      Reachable v (complete_job v agent_id job_id lease_token result now db).2
  | reconcileStep (now : Int) {db : Db} : Reachable v db → Reachable v (reconcile now db)

end Daemon

namespace OD

/-- Stage status of the orchestrator-daemon variant (`StageStatus`). -/
inductive StageStatus where
  | pending
  | running
  | succeeded
  | failed
  | needs_human
  | skipped
deriving DecidableEq, Repr

/-- Job status of the orchestrator-daemon variant (`JobStatus`). -/
inductive JobStatus where
  | queued
  | running
  | succeeded
  | failed
deriving DecidableEq, Repr

/-- Run status of the orchestrator-daemon variant (`RunStatus`). -/
inductive RunStatus where
  | running
  | succeeded
  | failed
deriving DecidableEq, Repr

/-- Stage kind of the orchestrator-daemon variant (`StageKind`): exec
blocks plus human approval gates. -/
inductive StageKind where
  | exec_block
  | gate
deriving DecidableEq, Repr

/-- Modelled from the spec: the `JobRow` record consumed by
`orchestrator-daemon/src/state.rs` (its defining module of
orchestrator-core is not among the sources; the spec's Job entity gives
the shape — `state.rs` reads `status`, `lease_token` and `stage_id`, which
references the StageRun record id). -/
structure JobRow where
  id : String
  stage_id : String
  status : JobStatus
  lease_owner : Option String
  lease_token : Option String
  lease_expires_at_ms : Option Int
  created_at_ms : Int
  updated_at_ms : Int
deriving DecidableEq, Repr

/-- Modelled from the spec: the `StageRunRow` record of state.rs; the
spec's StageRun entity gives `attempts_used:int` and `max_attempts:int`
(non-negative counters, modelled as `Nat` so that Rust
`saturating_add(1)` is plain successor). -/
structure StageRunRow where
  id : String
  run_id : String
  kind : StageKind
  status : StageStatus
  attempts_used : Nat
  max_attempts : Nat
  output_revision : Option String
  deps : List String
  updated_at_ms : Int
deriving DecidableEq, Repr

/-- Modelled from the spec: the `RunRow` record of state.rs. -/
structure RunRow where
  id : String
  project_path : String
  status : RunStatus
  updated_at_ms : Int
deriving DecidableEq, Repr

/-- Modelled from the spec: an execution-attempt evidence record; state.rs
only persists it verbatim, so its payload is opaque here. -/
structure ExecAttemptRow where
  id : String
deriving DecidableEq, Repr

/-- The `JobCompleteRequest` payload of state.rs. -/
structure JobCompleteRequest where
  job_id : String
  lease_token : String
  succeeded : Bool
  attempt : ExecAttemptRow
  output_revision : Option String
deriving DecidableEq, Repr

/-- The `ApiError` of state.rs. -/
inductive ApiError where
  | badRequest (msg : String)
  | notFound (msg : String)
  | internal (msg : String)
deriving DecidableEq, Repr

/-- The database state touched by `complete_job` of state.rs. -/
structure St where
  jobs : List JobRow
  stage_runs : List StageRunRow
  runs : List RunRow
  exec_attempts : List ExecAttemptRow
deriving DecidableEq, Repr

/-- `db.select(("job", id))`. -/
def findJobRow (st : St) (i : String) : Option JobRow :=
  st.jobs.find? (fun j => j.id = i)

/-- `db.select(("stage_run", id))`. -/
def findStageRow (st : St) (i : String) : Option StageRunRow :=
  st.stage_runs.find? (fun s => s.id = i)

/-- `db.update(("job", id)).merge(…)`. -/
def updateJobRow (st : St) (i : String) (f : JobRow → JobRow) : St :=
  { st with jobs := st.jobs.map (fun j => if j.id = i then f j else j) }

/-- `db.update(("stage_run", id)).merge(…)`. -/
def updateStageRow (st : St) (i : String) (f : StageRunRow → StageRunRow) : St :=
  { st with stage_runs := st.stage_runs.map (fun s => if s.id = i then f s else s) }

/-- `db.update(("run", id)).merge(…)`. -/
def updateRunRow (st : St) (i : String) (f : RunRow → RunRow) : St :=
  { st with runs := st.runs.map (fun r => if r.id = i then f r else r) }

/-- The `complete_job` endpoint of orchestrator-daemon/src/state.rs:
idempotency short-circuit, lease-token validation, job update, attempt
persistence, then the stage outcome with the multi-attempt retry policy
(`attempts_used + 1 < max_attempts` → back to pending). -/
def complete_job (st : St) (req : JobCompleteRequest) (now : Int) : Except ApiError St :=
  match findJobRow st req.job_id with
  | none => .error (.notFound "job not found")
  | some job =>
    if job.status = .succeeded ∨ job.status = .failed then
      .ok st
    else if job.lease_token ≠ some req.lease_token then
      .error (.badRequest "lease_token mismatch")
    else
      match findStageRow st job.stage_id with
      | none => .error (.internal "stage missing for completed job")
      | some stage =>
        let final_job_status : JobStatus := if req.succeeded then .succeeded else .failed
        let st := updateJobRow st req.job_id (fun j =>
          { j with status := final_job_status, updated_at_ms := now })
        let st := { st with exec_attempts := st.exec_attempts ++ [req.attempt] }
        if req.succeeded then
          .ok (updateStageRow st stage.id (fun s =>
            { s with status := .succeeded, updated_at_ms := now
                     output_revision := req.output_revision }))
        else
          let next_attempts := stage.attempts_used + 1
          if next_attempts < stage.max_attempts then
            .ok (updateStageRow st stage.id (fun s =>
              { s with status := .pending, attempts_used := next_attempts
                       updated_at_ms := now }))
          else
            let st := updateStageRow st stage.id (fun s =>
              { s with status := .failed, attempts_used := next_attempts
                       updated_at_ms := now })
            .ok (updateRunRow st stage.run_id (fun r =>
              { r with status := .failed, updated_at_ms := now }))

/-- One-job, one-stage state exercising the retry branch. -/
def stRetry : St :=
  { jobs := [{ id := "j1", stage_id := "s1", status := .running, lease_owner := some "agent"
               lease_token := some "tok", lease_expires_at_ms := some 900
               created_at_ms := 1, updated_at_ms := 1 }]
    stage_runs := [{ id := "s1", run_id := "r1", kind := .exec_block, status := .running
                     attempts_used := 0, max_attempts := 3, output_revision := none
                     deps := [], updated_at_ms := 1 }]
    runs := [{ id := "r1", project_path := "/tmp/p", status := .running, updated_at_ms := 1 }]
    exec_attempts := [] }

/-- The failing complete request for `stRetry`. -/
def reqRetry : JobCompleteRequest :=
  { job_id := "j1", lease_token := "tok", succeeded := false
    attempt := { id := "a1" }, output_revision := none }

end OD

namespace OA

/-- Executor kind of orchestrator-core (`ExecutorKind`). -/
inductive ExecutorKind where
  | localKind
  | slurmKind
deriving DecidableEq, Repr

/-- Slurm settings of orchestrator-core (`SlurmSpec`). -/
structure SlurmSpec where
  partition : Option String
  time_limit : Option String
  account : Option String
  qos : Option String
  cpus_per_task : Option Nat
  mem : Option String
  extra_args : List String
deriving DecidableEq, Repr

/-- Command spec of orchestrator-core (`CommandSpec`): carries
`allow_failure` and the timeout the agent enforces. -/
structure CommandSpec where
  name : Option String
  program : String
  args : List String
  env : List (String × String)
  allow_failure : Bool
  timeout_secs : Option Nat
deriving DecidableEq, Repr

/-- Exec block spec of orchestrator-core (`ExecBlockSpec`). -/
structure ExecBlockSpec where
  label : String
  executor : ExecutorKind
  env : List (String × String)
  slurm : Option SlurmSpec
  commands : List CommandSpec
deriving DecidableEq, Repr

/-- Per-command status of orchestrator-core (`CommandStatus`). -/
inductive CommandStatus where
  | succeeded
  | failed
  | timed_out
  | skipped
deriving DecidableEq, Repr

/-- Overall job status of orchestrator-core (`JobResultStatus`). -/
inductive JobResultStatus where
  | succeeded
  | failed
  | cancelled
deriving DecidableEq, Repr

/-- Per-command result of orchestrator-core (`CommandResult`). -/
structure CommandResult where
  index : Nat
  name : Option String
  program : String
  args : List String
  status : CommandStatus
  exit_code : Option Int
  started_ms : Int
  ended_ms : Int
  stdout_path : String
  stderr_path : String
deriving DecidableEq, Repr

/-- Behaviour oracle for the spawned child of one command: either the
spawn fails, or the child would exit after `wait_secs` wall-clock seconds
with the given `ExitStatus` (`success`, `code`).  `tokio::time::timeout`
fires exactly when the wait outlasts the deadline, i.e. when
`timeout_secs < wait_secs`. -/
inductive ProcBehavior where
  | spawnError (msg : String)
  | runs (wait_secs : Nat) (success : Bool) (code : Option Int)
deriving DecidableEq, Repr

/-- The `{:03}` zero-padded log-file index. -/
def pad3 (n : Nat) : String :=
  (if n < 10 then "00" else if n < 100 then "0" else "") ++ toString n

/-- The per-command loop of `run_local` in orchestrator-agent/src/main.rs.
`bh` is the process oracle, `clock` supplies the `started_ms`/`ended_ms`
stamps (wall-clock reads), `bundle_cmd_dir` the `cmd` directory of the
bundle.  Spawn failures propagate as `Err` (the `?` operator); a command
that is not `Succeeded` and not `allow_failure` clears `overall_ok`, and
the loop breaks as soon as `overall_ok` is false. -/
def runCmds (bundle_cmd_dir : String) (bh : Nat → ProcBehavior) (clock : Nat → Int × Int) :
    Nat → Bool → List CommandResult → List CommandSpec →
      Except String (List CommandResult × Bool)
  | _, overall_ok, acc, [] => .ok (acc, overall_ok)
  | idx, overall_ok, acc, cmd :: rest =>
    match bh idx with
    | .spawnError msg => .error ("spawning " ++ cmd.program ++ ": " ++ msg)
    | .runs wait_secs success code =>
      let status_res : Option (Bool × Option Int) :=
        match cmd.timeout_secs with
        | some secs => if secs < wait_secs then none else some (success, code)
        | none => some (success, code)
      let statusCode : CommandStatus × Option Int :=
        match status_res with
        | some (su, c) => (if su then CommandStatus.succeeded else CommandStatus.failed, c)
        | none => (CommandStatus.timed_out, none)
      let overall_ok := if statusCode.1 ≠ CommandStatus.succeeded ∧ ¬ cmd.allow_failure
        then false else overall_ok
      let r : CommandResult :=
        { index := idx, name := cmd.name, program := cmd.program, args := cmd.args
          status := statusCode.1, exit_code := statusCode.2
          started_ms := (clock idx).1, ended_ms := (clock idx).2
          stdout_path := bundle_cmd_dir ++ "/" ++ pad3 idx ++ ".stdout.log"
          stderr_path := bundle_cmd_dir ++ "/" ++ pad3 idx ++ ".stderr.log" }
      if ¬ overall_ok then .ok (acc ++ [r], overall_ok)
      else runCmds bundle_cmd_dir bh clock (idx + 1) overall_ok (acc ++ [r]) rest

/-- The `run_local` function of orchestrator-agent/src/main.rs: run the
commands in order and fold the `overall_ok` flag into the job status. -/
def run_local (exec : ExecBlockSpec) (bundle_cmd_dir : String) (bh : Nat → ProcBehavior)
    (clock : Nat → Int × Int) : Except String (List CommandResult × JobResultStatus) :=
  (runCmds bundle_cmd_dir bh clock 0 true [] exec.commands).map
    (fun p => (p.1, if p.2 then JobResultStatus.succeeded else JobResultStatus.failed))

/-- The per-command status `run_local` would record for a command with the
given behaviour (`none` when the spawn fails and the block aborts). -/
def cmdStatusOf (cmd : CommandSpec) (b : ProcBehavior) : Option CommandStatus :=
  match b with
  | .spawnError _ => none
  | .runs wait_secs success _ =>
    match cmd.timeout_secs with
    | some secs =>
      if secs < wait_secs then some .timed_out
      else some (if success then .succeeded else .failed)
    | none => some (if success then .succeeded else .failed)

/-- Concrete one-command block for exercising the timeout path: `sleep 5`
with a 1-second timeout. -/
def ex9cmd : CommandSpec :=
  { name := some "sleep", program := "sleep", args := ["5"], env := []
    allow_failure := false, timeout_secs := some 1 }

/-- Concrete exec block holding `ex9cmd`. -/
def ex9exec : ExecBlockSpec :=
  { label := "b0", executor := ExecutorKind.localKind, env := [], slurm := none
    commands := [ex9cmd] }

/-- Oracle: every spawned child would run for 5 seconds and then exit 0. -/
def ex9bh : Nat → ProcBehavior := fun _ => ProcBehavior.runs 5 true (some 0)

/-- Oracle for the wall-clock stamps. -/
def ex9clock : Nat → Int × Int := fun _ => (0, 1000)

end OA

namespace AO

theorem outInv_allowOut : outInv ValidationOutcome.allowOut := by
  constructor <;> simp [ValidationOutcome.allowOut]

theorem outInv_warnMsg {o : ValidationOutcome} (h : outInv o) (m : String) :
    outInv (o.warnMsg m) := by
  obtain ⟨h1, h2⟩ := h
  cases hd : o.decision <;>
    simp_all [ValidationOutcome.warnMsg, outInv]

theorem outInv_blockMsg {o : ValidationOutcome} (h : outInv o) (m : String) :
    outInv (o.blockMsg m) := by
  constructor <;> simp [ValidationOutcome.blockMsg]

theorem outInv_merge {a b : ValidationOutcome} (ha : outInv a) (hb : outInv b) :
    outInv (out_merge a b) := by
  obtain ⟨ha1, ha2⟩ := ha
  obtain ⟨hb1, hb2⟩ := hb
  cases hda : a.decision <;> cases hdb : b.decision <;>
    simp_all [out_merge, outInv, List.append_eq_nil]

theorem outInv_destructiveCheck {out : ValidationOutcome} (h : outInv out)
    (index : Nat) (blk : ExecBlockSpec) (cmd : CommandSpec) (prog : String) :
    outInv (exceptJoin (destructiveCheck index blk cmd prog out)) := by
  unfold destructiveCheck
  by_cases h1 : prog = "rm" ∨ prog = "rmdir" ∨ prog = "unlink"
  · simp only [h1, if_true]
    by_cases h2 : (non_flag_args cmd.args).isEmpty
    · simp only [h2, if_true]
      cases hf : (non_flag_args cmd.args).find? (fun p => ¬ is_safe_rel_path p) <;>
        simp only [hf, exceptJoin]
      · exact outInv_warnMsg (outInv_warnMsg h _) _
      · exact outInv_blockMsg (outInv_warnMsg h _) _
    · simp only [h2, if_false]
      cases hf : (non_flag_args cmd.args).find? (fun p => ¬ is_safe_rel_path p) <;>
        simp only [hf, exceptJoin]
      · exact outInv_warnMsg h _
      · exact outInv_blockMsg h _
  · simp only [h1, if_false]
    by_cases h3 : prog = "mv" ∨ prog = "cp" ∨ prog = "chmod" ∨ prog = "chown" ∨ prog = "ln"
    · simp only [h3, if_true]
      cases hf : (non_flag_args cmd.args).find? (fun a => ¬ is_safe_rel_path a) <;>
        simp only [hf, exceptJoin]
      · exact outInv_warnMsg h _
      · exact outInv_blockMsg h _
    · simp only [h3, if_false]
      by_cases h4 : prog = "dd" ∨ prog = "mkfs" ∨ prog = "shutdown" ∨ prog = "reboot"
      · simp only [h4, if_true, exceptJoin]
        exact outInv_blockMsg h _
      · simp only [h4, if_false, exceptJoin]
        exact h

theorem outInv_validate_command (index : Nat) (blk : ExecBlockSpec) (cmd : CommandSpec) :
    outInv (validate_command index blk cmd) := by
  have hd := outInv_destructiveCheck outInv_allowOut index blk cmd (strToLower cmd.program)
  simp only [validate_command]
  by_cases hs : shellPrograms.contains (strToLower cmd.program) = true ∧ ¬ blk.allow_shell = true
  · rw [if_pos hs]
    exact outInv_blockMsg outInv_allowOut _
  · rw [if_neg hs]
    have core : outInv (match destructiveCheck index blk cmd (strToLower cmd.program)
        ValidationOutcome.allowOut with
      | Except.error o => o
      | Except.ok o =>
        if ¬ is_absolute blk.workdir = true then
          o.warnMsg ("cmd[" ++ toString index ++ "]: workdir \x27" ++ blk.workdir ++
            "\x27 is not absolute; boundaries are enforced lexically in v0")
        else o) := by
      cases he : destructiveCheck index blk cmd (strToLower cmd.program)
          ValidationOutcome.allowOut with
      | error o =>
          rw [he] at hd
          dsimp only
          simpa [exceptJoin] using hd
      | ok o =>
          rw [he] at hd
          simp only [exceptJoin] at hd
          dsimp only
          by_cases ha : ¬ is_absolute blk.workdir = true
          · rw [if_pos ha]
            exact outInv_warnMsg hd _
          · rw [if_neg ha]
            exact hd
    cases hc : cmd.cwd with
    | some w =>
        dsimp only
        by_cases hw : ¬ is_safe_rel_path w = true
        · rw [if_pos hw]
          exact outInv_blockMsg outInv_allowOut _
        · rw [if_neg hw]
          exact core
    | none =>
        dsimp only
        exact core

theorem outInv_validateLoop (blk : ExecBlockSpec) :
    ∀ (cs : List CommandSpec) (idx : Nat) (out : ValidationOutcome),
      outInv out → outInv (validateLoop blk idx out cs)
  | [], _, _, h => h
  | c :: cs, idx, out, h => by
      simp only [validateLoop]
      have hm : outInv (out_merge out (validate_command idx blk c)) :=
        outInv_merge h (outInv_validate_command idx blk c)
      split
      · exact hm
      · exact outInv_validateLoop blk cs (idx + 1) _ hm

theorem outInv_validate_exec_block (spec : ExecBlockSpec) :
    outInv (validate_exec_block spec) := by
  unfold validate_exec_block
  split
  · exact outInv_blockMsg outInv_allowOut _
  · split
    · exact outInv_blockMsg outInv_allowOut _
    · exact outInv_validateLoop spec spec.commands 0 _ outInv_allowOut

theorem out_merge_block_iff (a b : ValidationOutcome) :
    (out_merge a b).decision = .block ↔ (a.decision = .block ∨ b.decision = .block) := by
  cases hda : a.decision <;> cases hdb : b.decision <;> simp [out_merge, hda, hdb]

theorem warnMsg_decision_block {o : ValidationOutcome} (h : o.decision = .block) (m : String) :
    (o.warnMsg m).decision = .block := by
  simp [ValidationOutcome.warnMsg, h]

theorem destructiveCheck_deny (index : Nat) (blk : ExecBlockSpec) (cmd : CommandSpec)
    (hp : strToLower cmd.program ∈ denyPrograms) :
    destructiveCheck index blk cmd (strToLower cmd.program) ValidationOutcome.allowOut =
      Except.ok (ValidationOutcome.allowOut.blockMsg
        ("cmd[" ++ toString index ++ "]: \x27" ++ strToLower cmd.program ++
          "\x27 is blocked by policy")) := by
  simp only [denyPrograms, List.mem_cons, List.not_mem_nil, or_false] at hp
  rcases hp with h | h | h | h <;>
    (rw [h]; simp only [destructiveCheck];
     rw [if_neg (by decide), if_neg (by decide), if_pos (by decide)])

theorem validate_command_deny (index : Nat) (blk : ExecBlockSpec) (cmd : CommandSpec)
    (hp : strToLower cmd.program ∈ denyPrograms) :
    (validate_command index blk cmd).decision = .block := by
  have hns : strToLower cmd.program ∉ shellPrograms := by
    simp only [denyPrograms, List.mem_cons, List.not_mem_nil, or_false] at hp
    rcases hp with h | h | h | h <;> rw [h] <;> decide
  have hcontains : shellPrograms.contains (strToLower cmd.program) = false := by
    simpa using hns
  simp only [validate_command]
  rw [if_neg (by simp; intro hmem; exact absurd hmem hns)]
  have core : (match destructiveCheck index blk cmd (strToLower cmd.program)
      ValidationOutcome.allowOut with
    | Except.error o => o
    | Except.ok o =>
      if ¬ is_absolute blk.workdir = true then
        o.warnMsg ("cmd[" ++ toString index ++ "]: workdir \x27" ++ blk.workdir ++
          "\x27 is not absolute; boundaries are enforced lexically in v0")
      else o).decision = .block := by
    rw [destructiveCheck_deny index blk cmd hp]
    dsimp only
    split
    · exact warnMsg_decision_block rfl _
    · rfl
  cases hc : cmd.cwd with
  | some w =>
      dsimp only
      by_cases hw : ¬ is_safe_rel_path w = true
      · rw [if_pos hw]
        rfl
      · rw [if_neg hw]
        exact core
  | none =>
      dsimp only
      exact core

theorem validateLoop_block_of_mem (blk : ExecBlockSpec) :
    ∀ (cs : List CommandSpec) (idx : Nat) (out : ValidationOutcome) (c : CommandSpec),
      c ∈ cs → (∀ i, (validate_command i blk c).decision = .block) →
      (validateLoop blk idx out cs).decision = .block
  | [], _, _, _, hmem, _ => absurd hmem (List.not_mem_nil _)
  | c0 :: cs, idx, out, c, hmem, hblk => by
      simp only [validateLoop]
      rcases List.mem_cons.mp hmem with h | h
      · subst h
        have : (out_merge out (validate_command idx blk c)).decision = .block :=
          (out_merge_block_iff _ _).mpr (Or.inr (hblk idx))
        rw [if_pos this]
        exact this
      · split
        · assumption
        · exact validateLoop_block_of_mem blk cs (idx + 1) _ c h hblk

theorem validate_exec_block_deny (spec : ExecBlockSpec) (c : CommandSpec)
    (hc : c ∈ spec.commands) (hp : strToLower c.program ∈ denyPrograms) :
    (validate_exec_block spec).decision = .block := by
  unfold validate_exec_block
  split
  · rfl
  · split
    · rename_i hemp
      rw [List.isEmpty_iff] at hemp
      rw [hemp] at hc
      exact absurd hc (List.not_mem_nil _)
    · exact validateLoop_block_of_mem spec spec.commands 0 _ c hc
        (fun i => validate_command_deny i spec c hp)

theorem sudo_not_blocked : ¬ (validate_exec_block sudoSpec).decision = Decision.block := by
  decide

theorem validate_exec_block_deny_witness :
    (validate_exec_block ddSpec).decision = Decision.block :=
  validate_exec_block_deny ddSpec
    { program := "DD", args := ["if=/dev/zero"], cwd := none, env := [], timeout_sec := none }
    (by decide) (by decide)

theorem validate_command_shell (index : Nat) (blk : ExecBlockSpec) (cmd : CommandSpec)
    (hns : blk.allow_shell = false) (hp : strToLower cmd.program ∈ shellPrograms) :
    validate_command index blk cmd =
      ValidationOutcome.allowOut.blockMsg (shellBlockedMsg index cmd.program) := by
  simp only [validate_command]
  rw [if_pos]
  exact ⟨by simpa using hp, by simp [hns]⟩

theorem destructiveCheck_nonmatching (index : Nat) (blk : ExecBlockSpec) (cmd : CommandSpec)
    (prog : String) (out : ValidationOutcome)
    (h1 : ¬ (prog = "rm" ∨ prog = "rmdir" ∨ prog = "unlink"))
    (h2 : ¬ (prog = "mv" ∨ prog = "cp" ∨ prog = "chmod" ∨ prog = "chown" ∨ prog = "ln"))
    (h3 : ¬ (prog = "dd" ∨ prog = "mkfs" ∨ prog = "shutdown" ∨ prog = "reboot")) :
    destructiveCheck index blk cmd prog out = Except.ok out := by
  simp only [destructiveCheck]
  rw [if_neg h1, if_neg h2, if_neg h3]

theorem validate_command_shell_allowed (index : Nat) (blk : ExecBlockSpec) (cmd : CommandSpec)
    (ha : blk.allow_shell = true) (hp : strToLower cmd.program ∈ shellPrograms)
    (hcwd : cmd.cwd = none ∨ ∃ w, cmd.cwd = some w ∧ is_safe_rel_path w = true) :
    (validate_command index blk cmd).decision ≠ .block := by
  have hdc : destructiveCheck index blk cmd (strToLower cmd.program)
      ValidationOutcome.allowOut = Except.ok ValidationOutcome.allowOut := by
    have hp2 : strToLower cmd.program = "sh" ∨ strToLower cmd.program = "bash" ∨
        strToLower cmd.program = "zsh" ∨ strToLower cmd.program = "fish" ∨
        strToLower cmd.program = "cmd" ∨ strToLower cmd.program = "cmd.exe" ∨
        strToLower cmd.program = "powershell" ∨ strToLower cmd.program = "pwsh" := by
      simpa [shellPrograms] using hp
    apply destructiveCheck_nonmatching
    all_goals rcases hp2 with h | h | h | h | h | h | h | h <;> rw [h] <;> decide
  simp only [validate_command]
  rw [if_neg (by simp [ha])]
  have core : (match destructiveCheck index blk cmd (strToLower cmd.program)
      ValidationOutcome.allowOut with
    | Except.error o => o
    | Except.ok o =>
      if ¬ is_absolute blk.workdir = true then
        o.warnMsg ("cmd[" ++ toString index ++ "]: workdir \x27" ++ blk.workdir ++
          "\x27 is not absolute; boundaries are enforced lexically in v0")
      else o).decision ≠ .block := by
    rw [hdc]
    dsimp only
    split
    · simp [ValidationOutcome.warnMsg, ValidationOutcome.allowOut]
    · simp [ValidationOutcome.allowOut]
  rcases hcwd with h | ⟨w, hw, hsafe⟩
  · rw [h]
    dsimp only
    exact core
  · rw [hw]
    dsimp only
    rw [if_neg (by simp [hsafe])]
    exact core

theorem validateLoop_append (blk : ExecBlockSpec) :
    ∀ (pre cs : List CommandSpec) (idx : Nat) (out : ValidationOutcome),
      out.decision ≠ .block →
      validateLoop blk idx out (pre ++ cs) =
        (if (validateLoop blk idx out pre).decision = .block then validateLoop blk idx out pre
         else validateLoop blk (idx + pre.length) (validateLoop blk idx out pre) cs)
  | [], cs, idx, out, h => by
      simp [validateLoop, h]
  | p :: ps, cs, idx, out, h => by
      simp only [List.cons_append, validateLoop]
      by_cases hm : (out_merge out (validate_command idx blk p)).decision = .block
      · rw [if_pos hm, if_pos hm, if_pos hm]
      · rw [if_neg hm, if_neg hm]
        simp only [List.append_eq]
        rw [validateLoop_append blk ps cs (idx + 1) _ hm]
        have hlen : idx + (p :: ps).length = (idx + 1) + ps.length := by
          simp [Nat.add_comm, Nat.add_assoc, Nat.add_left_comm]
        rw [List.length_cons]
        congr 2
        omega

theorem shellFrag_infix_blockedMsg (index : Nat) (program : String) :
    List.IsInfix (shellFrag program).data (shellBlockedMsg index program).data := by
  refine ⟨("cmd[" ++ toString index ++ "]: ").data,
          " (set allow_shell=true to override)".data, ?_⟩
  simp [shellBlockedMsg, String.data_append, List.append_assoc]

theorem shell_entrypoint_gate (spec : ExecBlockSpec) :
    (spec.allow_shell = false →
      ∀ pre c post, spec.commands = pre ++ c :: post →
        strToLower c.program ∈ shellPrograms →
        (validateLoop spec 0 ValidationOutcome.allowOut pre).decision ≠ .block →
        strIsEmpty (strTrim spec.workdir) = false →
        (validate_exec_block spec).decision = .block ∧
          ∃ v ∈ (validate_exec_block spec).violations,
            List.IsInfix (shellFrag c.program).data v.data) ∧
    (spec.allow_shell = true →
      ∀ idx c, c ∈ spec.commands → strToLower c.program ∈ shellPrograms →
        (c.cwd = none ∨ ∃ w, c.cwd = some w ∧ is_safe_rel_path w = true) →
        (validate_command idx spec c).decision ≠ .block) := by
  constructor
  · intro hns pre c post hsplit hshell hpre hwd
    have hne : spec.commands.isEmpty = false := by
      rw [hsplit]
      simp
    have hres : validate_exec_block spec =
        out_merge (validateLoop spec 0 ValidationOutcome.allowOut pre)
          (validate_command (0 + pre.length) spec c) := by
      unfold validate_exec_block
      rw [if_neg (by simp [hwd]), if_neg (by simp [hne]), hsplit]
      rw [validateLoop_append spec pre (c :: post) 0 _ (by decide)]
      rw [if_neg hpre]
      simp only [validateLoop]
      rw [if_pos]
      rw [validate_command_shell (0 + pre.length) spec c hns hshell]
      exact (out_merge_block_iff _ _).mpr (Or.inr rfl)
    have hblock : (validate_exec_block spec).decision = .block := by
      rw [hres]
      exact (out_merge_block_iff _ _).mpr
        (Or.inr (by rw [validate_command_shell (0 + pre.length) spec c hns hshell]; rfl))
    refine ⟨hblock, shellBlockedMsg (0 + pre.length) c.program, ?_, ?_⟩
    · rw [hres]
      simp only [out_merge]
      rw [validate_command_shell (0 + pre.length) spec c hns hshell]
      simp [ValidationOutcome.blockMsg, ValidationOutcome.allowOut]
    · exact shellFrag_infix_blockedMsg _ _
  · intro ha idx c hc hshell hcwd
    exact validate_command_shell_allowed idx spec c ha hshell hcwd

theorem dash_not_blocked : ¬ (validate_exec_block dashSpec).decision = Decision.block := by
  decide

theorem shell_entrypoint_gate_witness :
    (validate_exec_block bashSpec).decision = Decision.block ∧
      ∃ v ∈ (validate_exec_block bashSpec).violations,
        List.IsInfix (shellFrag "bash").data v.data :=
  (shell_entrypoint_gate bashSpec).1 rfl []
    { program := "bash", args := ["-c", "echo hi"], cwd := none, env := [], timeout_sec := none }
    [] rfl (by decide) (by decide) (by decide)

theorem validate_exec_block_decision_iff (spec : ExecBlockSpec) :
    ((validate_exec_block spec).decision = .block ↔
      (validate_exec_block spec).violations ≠ []) ∧
    ((validate_exec_block spec).decision = .allow →
      (validate_exec_block spec).warnings = []) := by
  have h := outInv_validate_exec_block spec
  unfold outInv at h
  exact h

theorem validate_exec_block_decision_iff_witness :
    (validate_exec_block echoSpec).warnings = [] :=
  (validate_exec_block_decision_iff echoSpec).2 (by decide)

end AO

namespace Daemon

theorem complete_job_mismatch_eq (v : Validator) (agent_id : String) (job_id : Id)
    (lease_token : String) (result : ExecBlockResult) (now : Int) (db : Db) (job : JobRec)
    (hfind : findJob db job_id = some job)
    (hnt : ¬ (job.status = .succeeded ∨ job.status = .failed))
    (hmm : ¬ (job.lease_owner = some agent_id ∧ job.lease_token = some lease_token)) :
    complete_job v agent_id job_id lease_token result now db =
      ({ ok := false, message := some "lease mismatch" }, db) := by
  simp only [complete_job, hfind]
  rw [if_neg hnt, if_pos hmm]

theorem complete_job_lease_mismatch (v : Validator) (agent_id : String) (job_id : Id)
    (lease_token : String) (result : ExecBlockResult) (now : Int) (db : Db) (job : JobRec)
    (hfind : findJob db job_id = some job)
    (hnt : ¬ (job.status = .succeeded ∨ job.status = .failed))
    (hmm : ¬ (job.lease_owner = some agent_id ∧ job.lease_token = some lease_token)) :
    complete_job v agent_id job_id lease_token result now db =
      ({ ok := false, message := some "lease mismatch" }, db) :=
  complete_job_mismatch_eq v agent_id job_id lease_token result now db job hfind hnt hmm

theorem complete_job_lease_mismatch_witness :
    complete_job coreValidate "b" 4 "t" failRes 21 dbC4 =
      ({ ok := false, message := some "lease mismatch" }, dbC4) :=
  complete_job_lease_mismatch coreValidate "b" 4 "t" failRes 21 dbC4
    jobC4 (by decide) (by decide) (by decide)

theorem skip_fanout_misses_descendants :
    (complete_job coreValidate "a" 4 "t" failRes 21 dbC4).1 = { ok := true, message := none } ∧
    (findStageRun dbC4After 1).map (fun s => s.status) = some StageStatus.succeeded ∧
    (findStageRun dbC4After 2).map (fun s => s.status) = some StageStatus.failed ∧
    (findStageRun dbC4After 3).map (fun s => s.status) = some StageStatus.pending ∧
    (findRun dbC4After 0).map (fun r => r.status) = some RunStatus.failed := by
  decide

theorem expiredOpt_iff (o : Option Int) (now : Int) :
    expiredOpt o now = true ↔ ∃ e, o = some e ∧ e < now := by
  cases o <;> simp [expiredOpt]

theorem reconcile_requeues_expired (now : Int) (db : Db) :
    (reconcile now db).intents = db.intents ∧
    (reconcile now db).stage_runs = db.stage_runs ∧
    (reconcile now db).artifacts = db.artifacts ∧
    (reconcile now db).requires = db.requires ∧
    (reconcile now db).fresh = db.fresh ∧
    (∀ i : Nat, ∀ j, db.jobs[i]? = some j →
      ∃ j2, (reconcile now db).jobs[i]? = some j2 ∧
        (j.status = .running ∧ (∃ e, j.lease_expires_at_ms = some e ∧ e < now) →
          j2.status = .queued ∧ j2.lease_owner = none ∧ j2.lease_token = none ∧
          j2.lease_expires_at_ms = none ∧ j2.id = j.id ∧ j2.run_id = j.run_id ∧
          j2.stage_run_id = j.stage_run_id ∧ j2.stage_id = j.stage_id ∧ j2.kind = j.kind ∧
          j2.config = j.config ∧ j2.created_at_ms = j.created_at_ms ∧
          j2.started_at_ms = j.started_at_ms ∧ j2.finished_at_ms = j.finished_at_ms ∧
          j2.workspace_path = j.workspace_path ∧ j2.artifact_id = j.artifact_id ∧
          j2.result = j.result) ∧
        (¬ (j.status = .running ∧ (∃ e, j.lease_expires_at_ms = some e ∧ e < now)) →
          j2 = j)) ∧
    (∀ i : Nat, ∀ r, db.runs[i]? = some r →
      ∃ r2, (reconcile now db).runs[i]? = some r2 ∧
        ((∃ e, r.owner_lease_expires_at_ms = some e ∧ e < now) →
          r2.owner_agent = none ∧ r2.owner_lease_expires_at_ms = none ∧
          r2.id = r.id ∧ r2.intent_id = r.intent_id ∧
          r2.workflow_name = r.workflow_name ∧ r2.status = r.status ∧
          r2.created_at_ms = r.created_at_ms) ∧
        (¬ (∃ e, r.owner_lease_expires_at_ms = some e ∧ e < now) → r2 = r)) := by
  refine ⟨rfl, rfl, rfl, rfl, rfl, ?_, ?_⟩
  · intro i j hj
    refine ⟨if j.status = JobStatus.running ∧ expiredOpt j.lease_expires_at_ms now = true then
        { j with status := .queued, lease_owner := none, lease_token := none
                 lease_expires_at_ms := none }
      else j, ?_, ?_, ?_⟩
    · simp [reconcile, List.getElem?_map, hj]
    · intro hexp
      rw [if_pos ⟨hexp.1, (expiredOpt_iff _ _).mpr hexp.2⟩]
      simp
    · intro hnexp
      rw [if_neg ?_]
      intro hc
      exact hnexp ⟨hc.1, (expiredOpt_iff _ _).mp hc.2⟩
  · intro i r hr
    refine ⟨if expiredOpt r.owner_lease_expires_at_ms now = true then
        { r with owner_agent := none, owner_lease_expires_at_ms := none }
      else r, ?_, ?_, ?_⟩
    · simp [reconcile, List.getElem?_map, hr]
    · intro hexp
      rw [if_pos ((expiredOpt_iff _ _).mpr hexp)]
      simp
    · intro hnexp
      rw [if_neg ?_]
      intro hc
      exact hnexp ((expiredOpt_iff _ _).mp hc)

theorem reconcile_requeues_expired_witness :
    ∃ j2, (reconcile 1000 dbC4).jobs[0]? = some j2 ∧ j2.status = JobStatus.queued ∧
      j2.lease_owner = none := by
  obtain ⟨j2, h1, h2, _⟩ := (reconcile_requeues_expired 1000 dbC4).2.2.2.2.2.1 0 jobC4 rfl
  obtain ⟨hs, ho, _⟩ := h2 ⟨rfl, 500, rfl, by decide⟩
  exact ⟨j2, h1, hs, ho⟩

theorem find?_map_update {α : Type} [DecidableEq α]
    (idOf : JobRec → α) (i : α) (f : JobRec → JobRec)
    (hid : ∀ j, idOf (f j) = idOf j) :
    ∀ l : List JobRec,
      (l.map (fun j => if idOf j = i then f j else j)).find? (fun j => idOf j = i) =
        (l.find? (fun j => idOf j = i)).map f
  | [] => rfl
  | x :: xs => by
    by_cases hx : idOf x = i
    · simp [hx, hid, List.find?_cons]
    · have hmx : (if idOf x = i then f x else x) = x := if_neg hx
      simp only [List.map_cons, hmx]
      rw [List.find?_cons_of_neg _ (by simp [hx]), List.find?_cons_of_neg _ (by simp [hx])]
      exact find?_map_update idOf i f hid xs

theorem findJob_updateJob (db : Db) (i : Id) (f : JobRec → JobRec)
    (hid : ∀ j, (f j).id = j.id) :
    findJob (updateJob db i f) i = (findJob db i).map f :=
  find?_map_update (fun j => j.id) i f hid db.jobs

theorem jobs_skipBFS : ∀ (fuel : Nat) (queue seen : List Id) (db : Db),
    (skipBFS fuel queue seen db).jobs = db.jobs
  | 0, _, _, db => rfl
  | _ + 1, [], _, db => rfl
  | fuel + 1, cur :: queue, seen, db => by
    rw [skipBFS]
    rw [jobs_skipBFS fuel]
    suffices h : ∀ (outs : List Id) (acc : List Id × List Id × Db),
        ((outs.foldl skipVisit acc).2.2).jobs = acc.2.2.jobs from h _ _
    intro outs
    induction outs with
    | nil => intro acc; rfl
    | cons o os ih =>
      intro acc
      rw [List.foldl_cons, ih]
      obtain ⟨q, sn, d⟩ := acc
      simp only [skipVisit]
      split <;> rfl

theorem jobs_skip_downstream (sr : Id) (db : Db) :
    (skip_downstream sr db).jobs = db.jobs :=
  jobs_skipBFS _ _ _ _

theorem jobs_update_run_status (run_id : Id) (db : Db) :
    (update_run_status run_id db).jobs = db.jobs := by
  unfold update_run_status
  dsimp only
  split
  · rfl
  · split <;> rfl

theorem jobs_enqueue_job (v : Validator) (now : Int) (sid : Id) (srr : StageRunRec) (db : Db) :
    ∃ tail, (enqueue_job_for_stage_run v now sid srr db).jobs = db.jobs ++ tail := by
  unfold enqueue_job_for_stage_run
  dsimp only
  by_cases hc : (db.jobs.filter (fun j =>
      j.stage_run_id = sid ∧ (j.status = .queued ∨ j.status = .running))).length > 0
  · rw [if_pos hc]
    exact ⟨[], by simp⟩
  · rw [if_neg hc]
    cases hdec : (v srr.config.exec).decision
    · exact ⟨[_], rfl⟩
    · exact ⟨[_], rfl⟩
    · exact ⟨[], by simp [updateStageRun]⟩

theorem jobs_enqueue_downstream (v : Validator) (now : Int) (sr : Id) (db : Db) :
    ∃ tail, (enqueue_downstream v now sr db).jobs = db.jobs ++ tail := by
  unfold enqueue_downstream
  generalize (db.stage_runs.filter _) = deps
  induction deps generalizing db with
  | nil => exact ⟨[], by simp⟩
  | cons d ds ih =>
    rw [List.foldl_cons]
    by_cases h1 : d.status ≠ StageStatus.pending
    · rw [if_pos h1]
      exact ih db
    · rw [if_neg h1]
      by_cases h2 : unmet_deps db d.id = 0
      · rw [if_pos h2]
        obtain ⟨t1, ht1⟩ := jobs_enqueue_job v now d.id d db
        obtain ⟨t2, ht2⟩ := ih (enqueue_job_for_stage_run v now d.id d db)
        exact ⟨t1 ++ t2, by rw [ht2, ht1, List.append_assoc]⟩
      · rw [if_neg h2]
        exact ih db

theorem find?_append_some {α : Type} {p : α → Bool} {l l2 : List α} {x : α}
    (h : l.find? p = some x) : (l ++ l2).find? p = some x := by
  induction l with
  | nil => cases h
  | cons a as ih =>
    rw [List.cons_append]
    cases hp : p a with
    | true =>
      rw [List.find?_cons_of_pos _ hp] at h ⊢
      exact h
    | false =>
      rw [List.find?_cons_of_neg _ (by simp [hp])] at h ⊢
      exact ih h

/-- The `job_status_str` computed by `complete_job` is always terminal. -/
theorem complete_status_terminal (st : JobStatus) :
    (match st with
      | JobStatus.succeeded => JobStatus.succeeded
      | JobStatus.failed => JobStatus.failed
      | JobStatus.queued => JobStatus.failed
      | JobStatus.running => JobStatus.failed) = JobStatus.succeeded ∨
    (match st with
      | JobStatus.succeeded => JobStatus.succeeded
      | JobStatus.failed => JobStatus.failed
      | JobStatus.queued => JobStatus.failed
      | JobStatus.running => JobStatus.failed) = JobStatus.failed := by
  cases st <;> simp

theorem findJob_eq_of_jobs_eq {d1 d2 : Db} (h : d1.jobs = d2.jobs) (i : Id) :
    findJob d1 i = findJob d2 i := by
  unfold findJob
  rw [h]

theorem findJob_update_run_status (r : Id) (d : Db) (i : Id) :
    findJob (update_run_status r d) i = findJob d i :=
  findJob_eq_of_jobs_eq (jobs_update_run_status r d) i

theorem findJob_skip_downstream (sr : Id) (d : Db) (i : Id) :
    findJob (skip_downstream sr d) i = findJob d i :=
  findJob_eq_of_jobs_eq (jobs_skip_downstream sr d) i

theorem findJob_complete_core (db : Db) (job_id : Id) (job : JobRec) (f : JobRec → JobRec)
    (hfind : findJob db job_id = some job) (hid : ∀ j, (f j).id = j.id) :
    findJob (updateJob db job_id f) job_id = some (f job) := by
  rw [findJob_updateJob db job_id f hid, hfind]
  rfl

theorem complete_job_leaves_terminal (v : Validator) (agent_id : String) (job_id : Id)
    (lease_token : String) (result : ExecBlockResult) (now : Int) (db : Db) (job : JobRec)
    (hfind : findJob db job_id = some job)
    (hnt : ¬ (job.status = .succeeded ∨ job.status = .failed))
    (hok : job.lease_owner = some agent_id ∧ job.lease_token = some lease_token) :
    ∃ jobT, findJob (complete_job v agent_id job_id lease_token result now db).2 job_id =
        some jobT ∧ (jobT.status = .succeeded ∨ jobT.status = .failed) := by
  simp only [complete_job, hfind]
  rw [if_neg hnt, if_neg (not_not.mpr hok)]
  dsimp only
  set jstat : JobStatus := (match result.status with
    | JobStatus.succeeded => JobStatus.succeeded
    | JobStatus.failed => JobStatus.failed
    | JobStatus.queued => JobStatus.failed
    | JobStatus.running => JobStatus.failed) with hjstat
  have hterm : jstat = JobStatus.succeeded ∨ jstat = JobStatus.failed := by
    rw [hjstat]
    exact complete_status_terminal result.status
  have hfindA : findJob { db with
      artifacts := db.artifacts ++
        [{ id := db.fresh, run_id := result.run_id, stage_id := result.stage_id
           bundle_root := result.bundle_root, created_at_ms := now }]
      fresh := db.fresh + 1 } job_id = some job := hfind
  by_cases hjs : jstat = JobStatus.succeeded
  · rw [if_pos (by rw [if_pos hjs])]
    obtain ⟨tail, ht⟩ := jobs_enqueue_downstream v now job.stage_run_id
      (updateStageRun (updateJob { db with
          artifacts := db.artifacts ++
            [{ id := db.fresh, run_id := result.run_id, stage_id := result.stage_id
               bundle_root := result.bundle_root, created_at_ms := now }]
          fresh := db.fresh + 1 } job_id
          (completeJobUpdate jstat result.finished_at_ms db.fresh result))
        job.stage_run_id (fun s =>
          { s with status := if jstat = JobStatus.succeeded then StageStatus.succeeded
                     else StageStatus.failed
                   finished_at_ms := some result.finished_at_ms
                   artifact_id := some db.fresh }))
    refine ⟨completeJobUpdate jstat result.finished_at_ms db.fresh result job, ?_, ?_⟩
    · rw [findJob_update_run_status]
      unfold findJob
      rw [ht]
      exact find?_append_some (findJob_complete_core _ job_id job _ hfindA (fun _ => rfl))
    · simpa [completeJobUpdate] using hterm
  · rw [if_neg (by simp [hjs])]
    refine ⟨completeJobUpdate jstat result.finished_at_ms db.fresh result job, ?_, ?_⟩
    · rw [findJob_update_run_status, findJob_skip_downstream]
      exact findJob_complete_core _ job_id job _ hfindA (fun _ => rfl)
    · simpa [completeJobUpdate] using hterm

theorem complete_job_not_found (v : Validator) (agent_id : String) (job_id : Id)
    (lease_token : String) (result : ExecBlockResult) (now : Int) (db : Db)
    (hfind : findJob db job_id = none) :
    complete_job v agent_id job_id lease_token result now db =
      ({ ok := false, message := some "job not found" }, db) := by
  simp only [complete_job, hfind]

theorem complete_job_already (v : Validator) (agent_id : String) (job_id : Id)
    (lease_token : String) (result : ExecBlockResult) (now : Int) (db : Db) (job : JobRec)
    (hfind : findJob db job_id = some job)
    (hterm : job.status = .succeeded ∨ job.status = .failed) :
    complete_job v agent_id job_id lease_token result now db =
      ({ ok := true, message := some "already completed" }, db) := by
  simp only [complete_job, hfind]
  rw [if_pos hterm]

theorem complete_job_idempotent (v : Validator) (agent_id : String) (job_id : Id)
    (lease_token : String) (result : ExecBlockResult) (now now2 : Int) (db : Db) :
    (complete_job v agent_id job_id lease_token result now2
        (complete_job v agent_id job_id lease_token result now db).2).2 =
      (complete_job v agent_id job_id lease_token result now db).2 ∧
    (∀ jobT, findJob (complete_job v agent_id job_id lease_token result now db).2 job_id =
        some jobT →
      jobT.status = .succeeded ∨ jobT.status = .failed →
      (complete_job v agent_id job_id lease_token result now2
          (complete_job v agent_id job_id lease_token result now db).2).1 =
        { ok := true, message := some "already completed" }) := by
  cases hfind : findJob db job_id with
  | none =>
      have h1 := complete_job_not_found v agent_id job_id lease_token result now db hfind
      rw [h1]
      have h2 := complete_job_not_found v agent_id job_id lease_token result now2 db hfind
      constructor
      · rw [h2]
      · intro jobT hj _
        rw [hfind] at hj
        cases hj
  | some job =>
    by_cases hterm : job.status = .succeeded ∨ job.status = .failed
    · have h1 := complete_job_already v agent_id job_id lease_token result now db job hfind hterm
      rw [h1]
      have h2 := complete_job_already v agent_id job_id lease_token result now2 db job hfind hterm
      constructor
      · rw [h2]
      · intro jobT hj ht
        rw [h2]
    · by_cases hok : job.lease_owner = some agent_id ∧ job.lease_token = some lease_token
      · obtain ⟨jobT, hjT, htT⟩ :=
          complete_job_leaves_terminal v agent_id job_id lease_token result now db job
            hfind hterm hok
        have h2 := complete_job_already v agent_id job_id lease_token result now2 _ jobT hjT htT
        constructor
        · rw [h2]
        · intro _ _ _
          rw [h2]
      · have h1 := complete_job_mismatch_eq v agent_id job_id lease_token result now db job
          hfind hterm hok
        rw [h1]
        have h2 := complete_job_mismatch_eq v agent_id job_id lease_token result now2 db job
          hfind hterm hok
        constructor
        · rw [h2]
        · intro jobT hj ht
          rw [hfind] at hj
          cases hj
          exact absurd ht hterm

theorem complete_job_idempotent_witness :
    (complete_job coreValidate "a" 4 "t" failRes 22
        (complete_job coreValidate "a" 4 "t" failRes 21 dbC4).2).2 =
      (complete_job coreValidate "a" 4 "t" failRes 21 dbC4).2 ∧
    (complete_job coreValidate "a" 4 "t" failRes 22
        (complete_job coreValidate "a" 4 "t" failRes 21 dbC4).2).1 =
      { ok := true, message := some "already completed" } := by
  have h := complete_job_idempotent coreValidate "a" 4 "t" failRes 21 22 dbC4
  exact ⟨h.1, h.2 (completeJobUpdate JobStatus.failed 20 5 failRes jobC4) (by decide) (by decide)⟩

theorem jobsWF_empty : JobsWF Db.empty := by
  refine ⟨?_, ?_, ?_⟩ <;> simp [Db.empty, activeForStage]

theorem jobsWF_of_eq {d1 d2 : Db} (h : JobsWF d1) (hj : d2.jobs = d1.jobs)
    (hf : d1.fresh ≤ d2.fresh) : JobsWF d2 := by
  obtain ⟨h1, h2, h3⟩ := h
  refine ⟨?_, ?_, ?_⟩
  · intro j hjm
    rw [hj] at hjm
    exact lt_of_lt_of_le (h1 j hjm) hf
  · rw [hj]
    exact h2
  · intro sr
    unfold activeForStage
    rw [hj]
    exact h3 sr

theorem jobsWF_map {db : Db} (h : JobsWF db) (g : JobRec → JobRec)
    (hid : ∀ j, (g j).id = j.id)
    (hsr : ∀ j, (g j).stage_run_id = j.stage_run_id)
    (hact : ∀ j ∈ db.jobs, ((g j).status = .queued ∨ (g j).status = .running) →
      (j.status = .queued ∨ j.status = .running)) :
    JobsWF { db with jobs := db.jobs.map g } := by
  obtain ⟨h1, h2, h3⟩ := h
  refine ⟨?_, ?_, ?_⟩
  · intro j hjm
    simp only [List.mem_map] at hjm
    obtain ⟨j0, hj0, rfl⟩ := hjm
    rw [hid]
    exact h1 j0 hj0
  · have : (db.jobs.map g).map (fun j => j.id) = db.jobs.map (fun j => j.id) := by
      rw [List.map_map]
      exact List.map_congr_left (fun j _ => hid j)
    simp only [this]
    exact h2
  · intro sr
    refine le_trans ?_ (h3 sr)
    unfold activeForStage
    rw [← List.countP_eq_length_filter, ← List.countP_eq_length_filter, List.countP_map]
    apply List.countP_mono_left
    intro j hjm hp
    simp only [Function.comp, decide_eq_true_eq] at hp ⊢
    obtain ⟨hps, hpa⟩ := hp
    exact ⟨by rw [← hsr j]; exact hps, hact j hjm hpa⟩

theorem jobsWF_append {db : Db} (h : JobsWF db) (new : JobRec)
    (hidn : new.id = db.fresh)
    (hguard : activeForStage db new.stage_run_id = 0) :
    JobsWF { db with jobs := db.jobs ++ [new], fresh := db.fresh + 1 } := by
  obtain ⟨h1, h2, h3⟩ := h
  refine ⟨?_, ?_, ?_⟩
  · intro j hjm
    simp only [List.mem_append, List.mem_singleton] at hjm
    rcases hjm with hjm | rfl
    · exact lt_trans (h1 j hjm) (Nat.lt_succ_self _)
    · rw [hidn]
      exact Nat.lt_succ_self _
  · rw [List.map_append]
    simp only [List.map_cons, List.map_nil]
    rw [List.nodup_append]
    refine ⟨h2, List.nodup_singleton _, ?_⟩
    intro a ha hb
    simp only [List.mem_singleton] at hb
    subst hb
    simp only [List.mem_map] at ha
    obtain ⟨j0, hj0, hji⟩ := ha
    rw [hidn] at hji
    exact absurd (hji ▸ h1 j0 hj0) (lt_irrefl _)
  · intro sr
    unfold activeForStage at hguard ⊢
    simp only [List.filter_append, List.length_append]
    by_cases hsr : new.stage_run_id = sr
    · subst hsr
      rw [hguard]
      simp only [Nat.zero_add]
      exact le_trans (List.length_filter_le _ _) (by simp)
    · have : ([new].filter (fun j =>
          j.stage_run_id = sr ∧ (j.status = .queued ∨ j.status = .running))) = [] := by
        simp [hsr]
      rw [this]
      simp only [List.length_nil, Nat.add_zero]
      exact h3 sr

theorem jobsWF_reconcile (now : Int) {db : Db} (h : JobsWF db) :
    JobsWF (reconcile now db) := by
  unfold reconcile
  dsimp only
  refine jobsWF_of_eq ?_ rfl ?_
  · refine jobsWF_map h _ (fun j => ?_) (fun j => ?_) (fun j hjm hact => ?_)
    · split <;> rfl
    · split <;> rfl
    · split at hact
      · rename_i hc
        exact Or.inr hc.1
      · exact hact
  · rfl

theorem jobsWF_updateStageRun {db : Db} (h : JobsWF db) (i : Id) (f : StageRunRec → StageRunRec) :
    JobsWF (updateStageRun db i f) :=
  jobsWF_of_eq h rfl (le_refl _)

theorem jobsWF_updateRun {db : Db} (h : JobsWF db) (i : Id) (f : RunRec → RunRec) :
    JobsWF (updateRun db i f) :=
  jobsWF_of_eq h rfl (le_refl _)

theorem jobsWF_enqueue_job (v : Validator) (now : Int) (sid : Id) (srr : StageRunRec)
    {db : Db} (h : JobsWF db) :
    JobsWF (enqueue_job_for_stage_run v now sid srr db) := by
  unfold enqueue_job_for_stage_run
  dsimp only
  by_cases hc : (db.jobs.filter (fun j =>
      j.stage_run_id = sid ∧ (j.status = .queued ∨ j.status = .running))).length > 0
  · rw [if_pos hc]
    exact h
  · rw [if_neg hc]
    have hguard : activeForStage db sid = 0 := Nat.eq_zero_of_not_pos hc
    cases hdec : (v srr.config.exec).decision
    · exact jobsWF_append h _ rfl hguard
    · exact jobsWF_append (jobsWF_updateStageRun h _ _) _ rfl hguard
    · exact jobsWF_updateStageRun h _ _

theorem jobsWF_enqueue_runnable (v : Validator) (now : Int) (run_id : Id) {db : Db}
    (h : JobsWF db) : JobsWF (enqueue_runnable_stages v now run_id db) := by
  unfold enqueue_runnable_stages
  generalize (db.stage_runs.filter _) = srs
  induction srs generalizing db with
  | nil => exact h
  | cons sr rest ih =>
    rw [List.foldl_cons]
    by_cases hd : unmet_deps db sr.id = 0
    · rw [if_pos hd]
      exact ih (jobsWF_enqueue_job v now sr.id sr h)
    · rw [if_neg hd]
      exact ih h

theorem jobsWF_enqueue_downstream (v : Validator) (now : Int) (sr : Id) {db : Db}
    (h : JobsWF db) : JobsWF (enqueue_downstream v now sr db) := by
  unfold enqueue_downstream
  generalize (db.stage_runs.filter _) = deps
  induction deps generalizing db with
  | nil => exact h
  | cons d ds ih =>
    rw [List.foldl_cons]
    by_cases h1 : d.status ≠ StageStatus.pending
    · rw [if_pos h1]
      exact ih h
    · rw [if_neg h1]
      by_cases h2 : unmet_deps db d.id = 0
      · rw [if_pos h2]
        exact ih (jobsWF_enqueue_job v now d.id d h)
      · rw [if_neg h2]
        exact ih h

theorem fresh_skipBFS : ∀ (fuel : Nat) (queue seen : List Id) (db : Db),
    (skipBFS fuel queue seen db).fresh = db.fresh
  | 0, _, _, db => rfl
  | _ + 1, [], _, db => rfl
  | fuel + 1, cur :: queue, seen, db => by
    rw [skipBFS]
    rw [fresh_skipBFS fuel]
    suffices h : ∀ (outs : List Id) (acc : List Id × List Id × Db),
        ((outs.foldl skipVisit acc).2.2).fresh = acc.2.2.fresh from h _ _
    intro outs
    induction outs with
    | nil => intro acc; rfl
    | cons o os ih =>
      intro acc
      rw [List.foldl_cons, ih]
      obtain ⟨q, sn, d⟩ := acc
      simp only [skipVisit]
      split <;> rfl

theorem jobsWF_skip_downstream (sr : Id) {db : Db} (h : JobsWF db) :
    JobsWF (skip_downstream sr db) :=
  jobsWF_of_eq h (jobs_skip_downstream sr db) (le_of_eq (fresh_skipBFS _ _ _ _).symm)

theorem fresh_update_run_status (run_id : Id) (db : Db) :
    (update_run_status run_id db).fresh = db.fresh := by
  unfold update_run_status
  dsimp only
  split
  · rfl
  · split <;> rfl

theorem jobsWF_update_run_status (run_id : Id) {db : Db} (h : JobsWF db) :
    JobsWF (update_run_status run_id db) :=
  jobsWF_of_eq h (jobs_update_run_status run_id db)
    (le_of_eq (fresh_update_run_status run_id db).symm)

theorem jobsWF_materialize (now : Int) (run_id : Id) (wf : WorkflowSpec) {db : Db}
    (h : JobsWF db) : JobsWF (materialize_run now run_id wf db) := by
  unfold materialize_run
  dsimp only
  have hstep : ∀ (stages : List StageDef) (acc : Db × List (String × Id)),
      JobsWF acc.1 →
      JobsWF (stages.foldl (fun (acc : Db × List (String × Id)) stage =>
        ({ acc.1 with
            stage_runs := acc.1.stage_runs ++
              [{ id := acc.1.fresh, run_id := run_id, stage_id := stage.stage_id
                 kind := stage.kind, config := stage.config, status := .pending
                 created_at_ms := now, validation := none, workspace_path := none
                 finished_at_ms := none, artifact_id := none }]
            fresh := acc.1.fresh + 1 },
          (stage.stage_id, acc.1.fresh) :: acc.2.filter (fun p => p.1 ≠ stage.stage_id)))
        acc).1 := by
    intro stages
    induction stages with
    | nil => intro acc hacc; exact hacc
    | cons st sts ih =>
      intro acc hacc
      rw [List.foldl_cons]
      exact ih _ (jobsWF_of_eq hacc rfl (Nat.le_succ _))
  have hedges : ∀ (edges : List Edge) (m : List (String × Id)) (d : Db), JobsWF d →
      JobsWF (edges.foldl (fun d e =>
        match m.find? (fun p => p.1 = e.from_), m.find? (fun p => p.1 = e.to_) with
        | some pf, some pt => { d with requires := d.requires ++ [{ inId := pt.2, outId := pf.2 }] }
        | _, _ => d) d) := by
    intro edges
    induction edges with
    | nil => intro m d hd; exact hd
    | cons e es ih =>
      intro m d hd
      rw [List.foldl_cons]
      apply ih
      cases m.find? (fun p => p.1 = e.from_) <;> cases m.find? (fun p => p.1 = e.to_) <;>
        exact jobsWF_of_eq hd rfl (le_refl _)
  exact hedges wf.edges _ _ (hstep wf.stages (db, []) h)

theorem jobsWF_demo_enqueue (v : Validator) (req : DemoEnqueueRequest) (now : Int) {db : Db}
    (h : JobsWF db) : JobsWF (demo_enqueue v req now db).2 := by
  unfold demo_enqueue
  dsimp only
  apply jobsWF_enqueue_runnable
  apply jobsWF_materialize
  exact jobsWF_of_eq h rfl (le_trans (Nat.le_succ _) (Nat.le_succ _))

theorem jobsWF_complete_job (v : Validator) (agent_id : String) (job_id : Id)
    (lease_token : String) (result : ExecBlockResult) (now : Int) {db : Db}
    (h : JobsWF db) : JobsWF (complete_job v agent_id job_id lease_token result now db).2 := by
  unfold complete_job
  cases hfind : findJob db job_id with
  | none => exact h
  | some job =>
    dsimp only
    by_cases hterm : job.status = .succeeded ∨ job.status = .failed
    · rw [if_pos hterm]
      exact h
    · rw [if_neg hterm]
      by_cases hok : job.lease_owner = some agent_id ∧ job.lease_token = some lease_token
      · rw [if_neg (not_not.mpr hok)]
        dsimp only
        apply jobsWF_update_run_status
        have hA : JobsWF { db with
            artifacts := db.artifacts ++
              [{ id := db.fresh, run_id := result.run_id, stage_id := result.stage_id
                 bundle_root := result.bundle_root, created_at_ms := now }]
            fresh := db.fresh + 1 } :=
          jobsWF_of_eq h rfl (Nat.le_succ _)
        have hB : JobsWF (updateJob { db with
            artifacts := db.artifacts ++
              [{ id := db.fresh, run_id := result.run_id, stage_id := result.stage_id
                 bundle_root := result.bundle_root, created_at_ms := now }]
            fresh := db.fresh + 1 } job_id
            (completeJobUpdate
              (match result.status with
                | JobStatus.succeeded => JobStatus.succeeded
                | JobStatus.failed => JobStatus.failed
                | JobStatus.queued => JobStatus.failed
                | JobStatus.running => JobStatus.failed)
              result.finished_at_ms db.fresh result)) := by
          apply jobsWF_map hA
          · intro j
            dsimp only [completeJobUpdate]
            split <;> rfl
          · intro j
            dsimp only [completeJobUpdate]
            split <;> rfl
          · intro j hm hac
            split at hac
            · exfalso
              rcases complete_status_terminal result.status with ht | ht <;>
                simp only [completeJobUpdate, ht] at hac <;> rcases hac with h2 | h2 <;> cases h2
            · exact hac
        split
        · exact jobsWF_enqueue_downstream _ _ _ (jobsWF_updateStageRun hB _ _)
        · exact jobsWF_skip_downstream _ (jobsWF_updateStageRun hB _ _)
      · rw [if_pos hok]
        exact h

theorem mem_insertByCreated {x j : JobRec} : ∀ {l : List JobRec},
    x ∈ insertByCreated j l → x = j ∨ x ∈ l
  | [], h => by simpa [insertByCreated] using h
  | y :: ys, h => by
    unfold insertByCreated at h
    split at h
    · simpa using h
    · rcases List.mem_cons.mp h with h1 | h1
      · exact Or.inr (by simp [h1])
      · rcases mem_insertByCreated h1 with h2 | h2
        · exact Or.inl h2
        · exact Or.inr (List.mem_cons_of_mem _ h2)

theorem mem_sortByCreated {x : JobRec} : ∀ {l : List JobRec}, x ∈ sortByCreated l → x ∈ l
  | [], h => by simpa [sortByCreated] using h
  | y :: ys, h => by
    unfold sortByCreated at h
    rcases mem_insertByCreated h with h1 | h1
    · simp [h1]
    · exact List.mem_cons_of_mem _ (mem_sortByCreated h1)

theorem candidate_spec {db : Db} {c : JobRec}
    (h : c ∈ (sortByCreated (db.jobs.filter (fun j => j.status = .queued))).take 10) :
    c ∈ db.jobs ∧ c.status = .queued := by
  have h1 := List.take_subset _ _ h
  have h2 := mem_sortByCreated h1
  have h3 := List.mem_filter.mp h2
  exact ⟨h3.1, by simpa using h3.2⟩

theorem jobsWF_claimLoop (agent_id lease_token : String) (now lease_ms : Int)
    (ws : Option String) {db : Db} (h : JobsWF db) :
    ∀ cs : List JobRec, (∀ c ∈ cs, c ∈ db.jobs ∧ c.status = .queued) →
      JobsWF (claimLoop agent_id lease_token now lease_ms ws db cs).2
  | [], _ => h
  | c :: cs, hcs => by
    have htail : ∀ x ∈ cs, x ∈ db.jobs ∧ x.status = .queued :=
      fun x hx => hcs x (List.mem_cons_of_mem _ hx)
    have hc := hcs c (List.mem_cons_self _ _)
    unfold claimLoop
    cases hrun : findRun db c.run_id with
    | none => exact jobsWF_claimLoop agent_id lease_token now lease_ms ws h cs htail
    | some run =>
      dsimp only
      split
      · exact jobsWF_claimLoop agent_id lease_token now lease_ms ws h cs htail
      · have hB : JobsWF (updateJob db c.id (fun j =>
            { j with status := .running, lease_owner := some agent_id
                     lease_token := some lease_token
                     lease_expires_at_ms := some (now + lease_ms)
                     started_at_ms := some now })) := by
          apply jobsWF_map h
          · intro j
            split <;> rfl
          · intro j
            split <;> rfl
          · intro j hm hac
            by_cases hji : j.id = c.id
            · have hx := List.inj_on_of_nodup_map h.2.1 hm hc.1 hji
              rw [hx]
              exact Or.inl hc.2
            · rw [if_neg hji] at hac
              exact hac
        cases hfind : findJob (updateJob db c.id (fun j =>
            { j with status := .running, lease_owner := some agent_id
                     lease_token := some lease_token
                     lease_expires_at_ms := some (now + lease_ms)
                     started_at_ms := some now })) c.id with
        | none => exact hB
        | some job =>
          dsimp only
          cases job.config with
          | exec_block exec =>
            cases ws with
            | none => exact jobsWF_updateStageRun (jobsWF_updateRun hB _ _) _ _
            | some wsPath =>
              dsimp only
              apply jobsWF_updateStageRun
              apply jobsWF_map (jobsWF_updateStageRun (jobsWF_updateRun hB _ _) _ _)
              · intro j
                split <;> rfl
              · intro j
                split <;> rfl
              · intro j hm hac
                split at hac
                · exact hac
                · exact hac

theorem jobsWF_claim_job (agent_id lease_token : String) (now lease_ms : Int)
    (ws : Option String) {db : Db} (h : JobsWF db) :
    JobsWF (claim_job agent_id lease_token now lease_ms ws db).2 := by
  unfold claim_job
  exact jobsWF_claimLoop agent_id lease_token now lease_ms ws h _
    (fun c hc => candidate_spec hc)

theorem jobsWF_reachable {v : Validator} {db : Db} (h : Reachable v db) : JobsWF db := by
  induction h with
  | init => exact jobsWF_empty
  | demo req now _ ih => exact jobsWF_demo_enqueue v req now ih
  | claim agent_id lease_token now lease_ms ws _ ih =>
      exact jobsWF_claim_job agent_id lease_token now lease_ms ws ih
  | complete agent_id job_id lease_token result now _ ih =>
      exact jobsWF_complete_job v agent_id job_id lease_token result now ih
  | reconcileStep now _ ih => exact jobsWF_reconcile now ih

theorem at_most_one_active_job (v : Validator) (db : Db) (h : Reachable v db) (sr : Id) :
    activeForStage db sr ≤ 1 :=
  (jobsWF_reachable h).2.2 sr

theorem at_most_one_active_job_witness :
    activeForStage (demo_enqueue coreValidate
      { project_path := "/tmp/proj", description := "demo" } 100 Db.empty).2 4 ≤ 1 :=
  at_most_one_active_job coreValidate _
    (Reachable.demo { project_path := "/tmp/proj", description := "demo" } 100 Reachable.init) 4

end Daemon

namespace OD

theorem find?_map_update_row {α : Type} [DecidableEq α]
    (idOf : StageRunRow → α) (i : α) (f : StageRunRow → StageRunRow)
    (hid : ∀ s, idOf (f s) = idOf s) :
    ∀ l : List StageRunRow,
      (l.map (fun s => if idOf s = i then f s else s)).find? (fun s => idOf s = i) =
        (l.find? (fun s => idOf s = i)).map f
  | [] => rfl
  | x :: xs => by
    by_cases hx : idOf x = i
    · simp [hx, hid, List.find?_cons]
    · have hmx : (if idOf x = i then f x else x) = x := if_neg hx
      simp only [List.map_cons, hmx]
      rw [List.find?_cons_of_neg _ (by simp [hx]), List.find?_cons_of_neg _ (by simp [hx])]
      exact find?_map_update_row idOf i f hid xs

theorem findStageRow_updateStageRow (st : St) (i : String) (f : StageRunRow → StageRunRow)
    (hid : ∀ s, (f s).id = s.id) :
    findStageRow (updateStageRow st i f) i = (findStageRow st i).map f :=
  find?_map_update_row (fun s => s.id) i f hid st.stage_runs

theorem findStageRow_updateRunRow (st : St) (r i : String) (f : RunRow → RunRow) :
    findStageRow (updateRunRow st r f) i = findStageRow st i := rfl

theorem findStageRow_update_found {st : St} {i : String} {s0 : StageRunRow}
    (f : StageRunRow → StageRunRow) (hid : ∀ s, (f s).id = s.id)
    (h : findStageRow st i = some s0) :
    findStageRow (updateStageRow st i f) i = some (f s0) := by
  rw [findStageRow_updateStageRow st i f hid, h]
  rfl

theorem complete_job_retry_policy (st : St) (req : JobCompleteRequest) (now : Int)
    (job : JobRow) (stage : StageRunRow)
    (hj : findJobRow st req.job_id = some job)
    (hnt : ¬ (job.status = .succeeded ∨ job.status = .failed))
    (htok : ¬ (job.lease_token ≠ some req.lease_token))
    (hs : findStageRow st job.stage_id = some stage)
    (hfail : req.succeeded = false) :
    ∃ st2, complete_job st req now = .ok st2 ∧
      ∃ stage2, findStageRow st2 stage.id = some stage2 ∧
        (stage.attempts_used + 1 < stage.max_attempts →
          stage2.status = .pending ∧ stage2.attempts_used = stage.attempts_used + 1) ∧
        (¬ stage.attempts_used + 1 < stage.max_attempts →
          stage2.status = .failed ∧ stage2.attempts_used = stage.attempts_used + 1) := by
  have hsid : stage.id = job.stage_id := by
    have := List.find?_some hs
    simpa using this
  simp only [complete_job, hj]
  rw [if_neg hnt, if_neg htok, hs]
  dsimp only
  rw [if_neg (by simp [hfail])]
  have hfindX : findStageRow
      { updateJobRow st req.job_id (fun j =>
          { j with status := if req.succeeded then JobStatus.succeeded else JobStatus.failed
                   updated_at_ms := now }) with
        exec_attempts := (updateJobRow st req.job_id (fun j =>
          { j with status := if req.succeeded then JobStatus.succeeded else JobStatus.failed
                   updated_at_ms := now })).exec_attempts ++ [req.attempt] }
      stage.id = some stage := by
    show findStageRow st stage.id = some stage
    rw [hsid]
    exact hs
  by_cases hret : stage.attempts_used + 1 < stage.max_attempts
  · rw [if_pos hret]
    refine ⟨_, rfl, ?_⟩
    refine ⟨{ stage with status := .pending, attempts_used := stage.attempts_used + 1, updated_at_ms := now }, ?_, ?_, ?_⟩
    · exact findStageRow_update_found _ (fun _ => rfl) hfindX
    · intro _
      exact ⟨rfl, rfl⟩
    · intro hc
      exact absurd hret hc
  · rw [if_neg hret]
    refine ⟨_, rfl, ?_⟩
    refine ⟨{ stage with status := .failed, attempts_used := stage.attempts_used + 1, updated_at_ms := now }, ?_, ?_, ?_⟩
    · rw [findStageRow_updateRunRow]
      exact findStageRow_update_found _ (fun _ => rfl) hfindX
    · intro hc
      exact absurd hc hret
    · intro _
      exact ⟨rfl, rfl⟩

theorem complete_job_retry_policy_witness :
    ∃ st2, complete_job stRetry reqRetry 5 = .ok st2 ∧
      ∃ stage2, findStageRow st2 "s1" = some stage2 ∧
        stage2.status = StageStatus.pending ∧ stage2.attempts_used = 1 := by
  obtain ⟨st2, h1, stage2, h2, h3, _⟩ :=
    complete_job_retry_policy stRetry reqRetry 5
      { id := "j1", stage_id := "s1", status := .running, lease_owner := some "agent"
        lease_token := some "tok", lease_expires_at_ms := some 900
        created_at_ms := 1, updated_at_ms := 1 }
      { id := "s1", run_id := "r1", kind := .exec_block, status := .running
        attempts_used := 0, max_attempts := 3, output_revision := none
        deps := [], updated_at_ms := 1 }
      (by decide) (by decide) (by decide) (by decide) (by decide)
  obtain ⟨h4, h5⟩ := h3 (by decide)
  exact ⟨st2, h1, stage2, h2, h4, h5⟩

end OD

namespace OA

theorem runCmds_prefix (bundle_cmd_dir : String) (bh : Nat → ProcBehavior)
    (clock : Nat → Int × Int) :
    ∀ (cmds : List CommandSpec) (idx : Nat) (ok : Bool) (acc rs : List CommandResult)
      (ov : Bool),
      runCmds bundle_cmd_dir bh clock idx ok acc cmds = .ok (rs, ov) →
      ∃ more, rs = acc ++ more
  | [], idx, ok, acc, rs, ov, h => by
    simp only [runCmds] at h
    cases h
    exact ⟨[], by simp⟩
  | cmd :: rest, idx, ok, acc, rs, ov, h => by
    simp only [runCmds] at h
    cases hb : bh idx with
    | spawnError msg =>
      rw [hb] at h
      cases h
    | runs wait_secs success code =>
      rw [hb] at h
      dsimp only at h
      split at h <;> split at h <;>
        first
          | (cases h; exact ⟨_, rfl⟩)
          | (obtain ⟨more, hm⟩ :=
              runCmds_prefix bundle_cmd_dir bh clock rest (idx + 1) _ _ rs ov h
             exact ⟨_, by rw [hm, List.append_assoc]⟩)

theorem statusOf_eq (cmd : CommandSpec) (d : Nat) (su : Bool) (cd : Option Int) :
    cmdStatusOf cmd (.runs d su cd) =
      some (match (match cmd.timeout_secs with
            | some secs => if secs < d then none else some (su, cd)
            | none => some (su, cd)) with
          | some (su2, c2) => (if su2 then CommandStatus.succeeded else CommandStatus.failed, c2)
          | none => (CommandStatus.timed_out, (none : Option Int))).1 := by
  unfold cmdStatusOf
  cases cmd.timeout_secs
  · rfl
  · dsimp only
    split
    · rfl
    · rfl

theorem concat_timed_out (acc : List CommandResult) (r : CommandResult) (n : Nat)
    (hlen : acc.length = n) (hs : r.status = CommandStatus.timed_out)
    (he : r.exit_code = none) :
    ∃ x, (acc ++ [r])[n]? = some x ∧ x.status = CommandStatus.timed_out ∧
      x.exit_code = none := by
  subst hlen
  exact ⟨r, List.getElem?_concat_length acc r, hs, he⟩

theorem concat_timed_out_prefix (acc : List CommandResult) (r : CommandResult)
    (more : List CommandResult) (n : Nat)
    (hlen : acc.length = n) (hs : r.status = CommandStatus.timed_out)
    (he : r.exit_code = none) :
    ∃ x, ((acc ++ [r]) ++ more)[n]? = some x ∧ x.status = CommandStatus.timed_out ∧
      x.exit_code = none := by
  subst hlen
  refine ⟨r, ?_, hs, he⟩
  rw [List.getElem?_append]
  rw [if_pos (by simp)]
  exact List.getElem?_concat_length acc r

theorem runCmds_timeout_aux (bundle_cmd_dir : String) (bh : Nat → ProcBehavior)
    (clock : Nat → Int × Int) (secs wait_secs : Nat) (success : Bool) (code : Option Int) :
    ∀ (cmds : List CommandSpec) (m base : Nat) (acc : List CommandResult) (cmd : CommandSpec),
      cmds[m]? = some cmd →
      cmd.timeout_secs = some secs →
      bh (base + m) = .runs wait_secs success code →
      secs < wait_secs →
      (∀ j, j < m → ∃ cj, cmds[j]? = some cj ∧ ∃ stj,
        cmdStatusOf cj (bh (base + j)) = some stj ∧
        (stj = CommandStatus.succeeded ∨ cj.allow_failure = true)) →
      acc.length = base →
      (cmd.allow_failure = false →
        ∃ rs, runCmds bundle_cmd_dir bh clock base true acc cmds = .ok (rs, false) ∧
          rs.length = base + m + 1 ∧
          ∃ r, rs[base + m]? = some r ∧ r.status = .timed_out ∧ r.exit_code = none) ∧
      (∀ rs ov, runCmds bundle_cmd_dir bh clock base true acc cmds = .ok (rs, ov) →
        ∃ r, rs[base + m]? = some r ∧ r.status = .timed_out ∧ r.exit_code = none)
  | [], m, base, acc, cmd, hc, _, _, _, _, _ => by cases hc
  | c0 :: rest, 0, base, acc, cmd, hc, ht, hb, hexp, _, hlen => by
    have hc0 : c0 = cmd := by simpa using hc
    subst hc0
    rw [Nat.add_zero] at hb ⊢
    simp only [runCmds, hb]
    rw [ht]
    dsimp only
    rw [if_pos hexp]
    dsimp only
    constructor
    · intro hforce
      rw [if_pos (by simp [hforce])]
      rw [if_pos (And.intro (by decide) (by simp [hforce]))]
      refine ⟨_, rfl, ?_, ?_⟩
      · simp [hlen]
      · exact concat_timed_out acc _ _ (by simpa using hlen) (by rfl) (by rfl)
    · intro rs ov h
      by_cases hforce : c0.allow_failure = true
      · rw [if_neg (by simp [hforce])] at h
        rw [if_neg (by simp [hforce])] at h
        obtain ⟨more, hm⟩ := runCmds_prefix bundle_cmd_dir bh clock rest (base + 1) _ _ rs ov h
        rw [hm]
        exact concat_timed_out_prefix acc _ more _ (by simpa using hlen) (by rfl) (by rfl)
      · rw [if_pos (by simp [hforce])] at h
        rw [if_pos (And.intro (by decide) (by simp [hforce]))] at h
        cases h
        exact concat_timed_out acc _ _ (by simpa using hlen) (by rfl) (by rfl)
  | c0 :: rest, m + 1, base, acc, cmd, hc, ht, hb, hexp, hpre, hlen => by
    obtain ⟨cj, hcj, st0, hst0, hok0⟩ := hpre 0 (Nat.succ_pos _)
    have hcj0 : c0 = cj := by simpa using hcj
    subst hcj0
    rw [Nat.add_zero] at hst0
    cases hb0 : bh base with
    | spawnError msg =>
        rw [hb0] at hst0
        cases hst0
    | runs d0 su0 cd0 =>
        rw [hb0] at hst0
        rw [statusOf_eq] at hst0
        have hst0v := Option.some.inj hst0
        simp only [runCmds, hb0]
        have hoverall : ¬ ((match (match c0.timeout_secs with
            | some secs2 => if secs2 < d0 then none else some (su0, cd0)
            | none => some (su0, cd0)) with
          | some (su2, c2) => (if su2 then CommandStatus.succeeded else CommandStatus.failed, c2)
          | none => (CommandStatus.timed_out, (none : Option Int))).1 ≠ CommandStatus.succeeded ∧
            ¬ c0.allow_failure = true) := by
          rw [hst0v]
          rcases hok0 with h1 | h1
          · intro hcon
            exact hcon.1 h1
          · intro hcon
            exact hcon.2 h1
        rw [if_neg hoverall]
        rw [if_neg (by decide)]
        have harith1 : base + (m + 1) = (base + 1) + m := by omega
        rw [harith1]
        rw [show (base + 1) + m + 1 = (base + 1) + (m + 1) by omega]
        exact runCmds_timeout_aux bundle_cmd_dir bh clock secs wait_secs success code
          rest m (base + 1) _ cmd (by simpa using hc) ht (by rw [← harith1]; exact hb) hexp
          (fun j hj => by
            obtain ⟨cj2, hcj2, stj2, hstj2, hok2⟩ := hpre (j + 1) (Nat.succ_lt_succ hj)
            refine ⟨cj2, by simpa using hcj2, stj2, ?_, hok2⟩
            rw [show (base + 1) + j = base + (j + 1) by omega]
            exact hstj2)
          (by simp [hlen])

/-- C9: the local runner enforces per-command timeouts.  For any command
list, process oracle and clock, if command `i` carries
`timeout_secs = some secs`, its child would only exit after
`wait_secs > secs` seconds, and every earlier command either succeeded or
had `allow_failure`, then: (a) when command `i` does not have
`allow_failure`, `run_local` returns `Ok` with overall status `failed`,
exactly `i+1` command results are recorded (the block stops at the
timed-out command), and result `i` has status `timed_out` with
`exit_code = none`; and (b) whatever `run_local` returns as `Ok`, the
result at index `i` is that `timed_out`/`exit_code = none` record — the
command is killed at the deadline rather than run to completion. -/
theorem run_local_enforces_timeout (exec : ExecBlockSpec) (bundle_cmd_dir : String)
    (bh : Nat → ProcBehavior) (clock : Nat → Int × Int)
    (i : Nat) (cmd : CommandSpec) (secs wait_secs : Nat) (success : Bool) (code : Option Int)
    (hc : exec.commands[i]? = some cmd)
    (ht : cmd.timeout_secs = some secs)
    (hb : bh i = ProcBehavior.runs wait_secs success code)
    (hexp : secs < wait_secs)
    (hpre : ∀ j, j < i → ∃ cj, exec.commands[j]? = some cj ∧ ∃ stj,
      cmdStatusOf cj (bh j) = some stj ∧
      (stj = CommandStatus.succeeded ∨ cj.allow_failure = true)) :
    (cmd.allow_failure = false →
      ∃ rs, run_local exec bundle_cmd_dir bh clock = .ok (rs, JobResultStatus.failed) ∧
        rs.length = i + 1 ∧
        ∃ r, rs[i]? = some r ∧ r.status = CommandStatus.timed_out ∧ r.exit_code = none) ∧
    (∀ rs st, run_local exec bundle_cmd_dir bh clock = .ok (rs, st) →
      ∃ r, rs[i]? = some r ∧ r.status = CommandStatus.timed_out ∧ r.exit_code = none) := by
  have H := runCmds_timeout_aux bundle_cmd_dir bh clock secs wait_secs success code
    exec.commands i 0 [] cmd hc ht (by simpa using hb) hexp
    (fun j hj => by simpa using hpre j hj) rfl
  simp only [Nat.zero_add] at H
  obtain ⟨H1, H2⟩ := H
  constructor
  · intro hforce
    obtain ⟨rs, hrun, hlen, hr⟩ := H1 hforce
    refine ⟨rs, ?_, hlen, hr⟩
    simp only [run_local, hrun, Except.map]
    rfl
  · intro rs st hrl
    simp only [run_local] at hrl
    cases hrc : runCmds bundle_cmd_dir bh clock 0 true [] exec.commands with
    | error e => rw [hrc] at hrl; cases hrl
    | ok p =>
        rw [hrc] at hrl
        cases hrl
        exact H2 p.1 p.2 (by rw [hrc])

/-- Witness for `run_local_enforces_timeout`: `sleep 5` under a 1-second
timeout is recorded as `timed_out` with no exit code and the block fails. -/
theorem run_local_enforces_timeout_witness :
    ex9cmd.allow_failure = false ∧
    ∃ rs, run_local ex9exec "/bundle/cmd" ex9bh ex9clock =
        .ok (rs, JobResultStatus.failed) ∧
      rs.length = 1 ∧
      ∃ r, rs[0]? = some r ∧ r.status = CommandStatus.timed_out ∧ r.exit_code = none :=
  ⟨rfl, (run_local_enforces_timeout ex9exec "/bundle/cmd" ex9bh ex9clock 0 ex9cmd 1 5
    true (some 0) rfl rfl rfl (by decide)
    (fun j hj => absurd hj (Nat.not_lt_zero j))).1 rfl⟩

end OA
